import Mathlib

/-!
Verification development for the `salesforce-data-connection` repository
(`dataconnect.js`: OAuth2 authenticator plus the lead create / read / persist
workflow).  The JavaScript is shallowly embedded: every function becomes a pure
Lean function from its inputs and the environment's responses (network results,
filesystem results, the clock) to the list of observable events it emits plus
its outcome.  JSON values are modelled by the inductive `Json` with integer
numerals (no payload in the repository ever does numeric computation); JS
strings are Lean `String`s.
-/

/-- A JSON value as produced by `JSON.parse` / consumed by `JSON.stringify`.
Numbers are modelled as integers: every numeral the program manipulates is
passed through verbatim and never computed with. -/
inductive Json where
  | null : Json
  | bool (b : Bool) : Json
  | num (n : Int) : Json
  | str (s : String) : Json
  | arr (xs : List Json) : Json
  | obj (fs : List (String × Json)) : Json

/-- JS truthiness of a JSON value (`null`, `false`, `0` and `""` are falsy;
arrays and objects are always truthy).  Models the `||` / `!` coercions the
source applies to parsed JSON values. -/
def jsonTruthy : Json → Bool
  | Json.null => false
  | Json.bool b => b
  | Json.num n => !(n == 0)
  | Json.str s => !(s == "")
  | Json.arr _ => true
  | Json.obj _ => true

/-- JS property access `v[k]` on a parsed JSON value: a field lookup on an
object, `undefined` (here `none`) on anything else.  (Member access on
`null`/`undefined` throws a `TypeError` in JS; the theorems below only apply
it to objects, where the two semantics agree.) -/
def jsGetField : Json → String → Option Json
  | Json.obj fs, k => fs.lookup k
  | _, _ => none

mutual
/-- String conversion performed by a JS template literal on a defined value:
`String(v)`.  Arrays stringify as their comma-joined elements with
`null` rendered empty, objects as `[object Object]`. -/
def jsValueToString : Json → String
  | Json.null => "null"
  | Json.bool b => if b then "true" else "false"
  | Json.num n => toString n
  | Json.str s => s
  | Json.arr xs => String.intercalate "," (jsArrayElemStrings xs)
  | Json.obj _ => "[object Object]"

/-- Element rendering used by `Array.prototype.toString` (`join(",")`):
`null` becomes the empty string, everything else renders as `String(v)`. -/
def jsArrayElemStrings : List Json → List String
  | [] => []
  | Json.null :: xs => "" :: jsArrayElemStrings xs
  | x :: xs => jsValueToString x :: jsArrayElemStrings xs
end

/-- String conversion performed by a JS template literal, `undefined`
included: an absent value interpolates as the literal text `undefined`. -/
def jsOptToString : Option Json → String
  | none => "undefined"
  | some v => jsValueToString v

/-- Decimal digit character. -/
def digitChar : Nat → Char
  | 0 => '0' | 1 => '1' | 2 => '2' | 3 => '3' | 4 => '4'
  | 5 => '5' | 6 => '6' | 7 => '7' | 8 => '8' | _ => '9'

/-- Fuelled decimal rendering of a natural number (most significant digit
first); the fuel only bounds the recursion depth. -/
def natCharsAux : Nat → Nat → List Char
  | 0, _ => []
  | fuel + 1, n => if n < 10 then [digitChar n]
      else natCharsAux fuel (n / 10) ++ [digitChar (n % 10)]

/-- Decimal rendering of a natural number. -/
def natChars (n : Nat) : List Char := natCharsAux (n + 1) n

/-- Decimal rendering of an integer, as JS renders integral numbers. -/
def intChars (n : Int) : List Char :=
  if n < 0 then '-' :: natChars n.natAbs else natChars n.toNat

/-- Lower-case hexadecimal digit character. -/
def hexCharLower (n : Nat) : Char :=
  if n < 10 then digitChar n
  else if n = 10 then 'a' else if n = 11 then 'b' else if n = 12 then 'c'
  else if n = 13 then 'd' else if n = 14 then 'e' else 'f'

/-- The escape `JSON.stringify` applies to one character of a string:
quote, backslash and the named control characters get two-character escapes,
the remaining control characters get `\u00XX`, everything else is literal. -/
def escChar (c : Char) : List Char :=
  if c = '"' then ['\\', '"']
  else if c = '\\' then ['\\', '\\']
  else if c = '\x08' then ['\\', 'b']
  else if c = '\x09' then ['\\', 't']
  else if c = '\x0a' then ['\\', 'n']
  else if c = '\x0c' then ['\\', 'f']
  else if c = '\x0d' then ['\\', 'r']
  else if c.toNat < 32 then
    ['\\', 'u', '0', '0', hexCharLower (c.toNat / 16), hexCharLower (c.toNat % 16)]
  else [c]

/-- `JSON.stringify` escaping of a whole string body. -/
def escapeChars : List Char → List Char
  | [] => []
  | c :: cs => escChar c ++ escapeChars cs

/-- A JSON string literal: quoted, escaped. -/
def quoteChars (s : String) : List Char := '"' :: escapeChars s.data ++ ['"']

/-- `n` spaces, the indentation unit of `JSON.stringify(v, null, 2)`. -/
def indentChars (n : Nat) : List Char := List.replicate n ' '

/-- Joins the already-rendered lines of an array or object body with the
separator `",\n"` that `JSON.stringify` uses in indented mode. -/
def joinLines : List (List Char) → List Char
  | [] => []
  | [l] => l
  | l :: ls => l ++ ',' :: '\n' :: joinLines ls

mutual
/-- `JSON.stringify(v, null, 2)` at nesting indentation `ind`: the exact text
produced by the indented serializer used at `dataconnect.js` lines 116 and
134. -/
def stringifyChars (ind : Nat) : Json → List Char
  | Json.null => ['n', 'u', 'l', 'l']
  | Json.bool b => if b then ['t', 'r', 'u', 'e'] else ['f', 'a', 'l', 's', 'e']
  | Json.num n => intChars n
  | Json.str s => quoteChars s
  | Json.arr [] => ['[', ']']
  | Json.arr (x :: xs) =>
      '[' :: '\n' :: joinLines (stringifyItems (ind + 2) (x :: xs)) ++
        '\n' :: indentChars ind ++ [']']
  | Json.obj [] => ['\x7b', '\x7d']
  | Json.obj (f :: fs) =>
      '\x7b' :: '\n' :: joinLines (stringifyMembers (ind + 2) (f :: fs)) ++
        '\n' :: indentChars ind ++ ['\x7d']

/-- The rendered lines of an array body, one per element, each prefixed by its
indentation. -/
def stringifyItems (ind : Nat) : List Json → List (List Char)
  | [] => []
  | x :: xs => (indentChars ind ++ stringifyChars ind x) :: stringifyItems ind xs

/-- The rendered lines of an object body, one per member. -/
def stringifyMembers (ind : Nat) : List (String × Json) → List (List Char)
  | [] => []
  | (k, v) :: fs =>
      (indentChars ind ++ quoteChars k ++ ':' :: ' ' :: stringifyChars ind v) ::
        stringifyMembers ind fs
end

/-- `JSON.stringify(v, null, 2)` as a string. -/
def jsonStringify2 (v : Json) : String := String.mk (stringifyChars 0 v)

/-- Upper-case hexadecimal digit character, as percent-encoding emits. -/
def hexCharUpper (n : Nat) : Char :=
  if n < 10 then digitChar n
  else if n = 10 then 'A' else if n = 11 then 'B' else if n = 12 then 'C'
  else if n = 13 then 'D' else if n = 14 then 'E' else 'F'

/-- UTF-8 bytes (as naturals) of a Unicode code point. -/
def utf8BytesOfNat (n : Nat) : List Nat :=
  if n < 0x80 then [n]
  else if n < 0x800 then [0xC0 + n / 0x40, 0x80 + n % 0x40]
  else if n < 0x10000 then
    [0xE0 + n / 0x1000, 0x80 + n / 0x40 % 0x40, 0x80 + n % 0x40]
  else
    [0xF0 + n / 0x40000, 0x80 + n / 0x1000 % 0x40, 0x80 + n / 0x40 % 0x40,
      0x80 + n % 0x40]

/-- RFC 3986 unreserved characters, the ones `qs.stringify` leaves literal. -/
def isUnreserved (c : Char) : Bool :=
  c.isAlphanum || c == '-' || c == '_' || c == '.' || c == '~'

/-- Percent escape `%XY` of one byte. -/
def percentByte (b : Nat) : List Char :=
  ['%', hexCharUpper (b / 16), hexCharUpper (b % 16)]

/-- Percent-encoding of a character sequence in `qs.stringify`'s default
RFC 3986 format: unreserved characters stay, every other character is
replaced by the percent escapes of its UTF-8 bytes. -/
def percentEncodeChars : List Char → List Char
  | [] => []
  | c :: cs =>
      (if isUnreserved c then [c]
       else (utf8BytesOfNat c.toNat).flatMap percentByte) ++ percentEncodeChars cs

/-- Percent-encoding of a string. -/
def percentEncode (s : String) : String := String.mk (percentEncodeChars s.data)

/-- One `key=value` pair of the form body, both sides percent-encoded. -/
def encodePairChars (kv : String × String) : List Char :=
  percentEncodeChars kv.1.data ++ '=' :: percentEncodeChars kv.2.data

/-- `qs.stringify(config)` (`dataconnect.js` line 50) for a flat mapping of
string fields: the `key=value` pairs of the configuration in order, joined
with `&`. -/
def qsStringifyChars : List (String × String) → List Char
  | [] => []
  | [kv] => encodePairChars kv
  | kv :: kvs => encodePairChars kv ++ '&' :: qsStringifyChars kvs

/-- `qs.stringify(config)` as a string. -/
def qsStringify (config : List (String × String)) : String :=
  String.mk (qsStringifyChars config)

/-- Body of an outbound HTTP request: a URL-encoded form string, or a value
the client serializes as JSON. -/
inductive RequestBody where
  | form (s : String) : RequestBody
  | json (j : Json) : RequestBody

/-- One observable action of the program: an outbound HTTP request, a console
line (with an optional structured second argument), a `writeFileSync`
invocation, or a `process.exit`. -/
inductive Event where
  | httpPost (url : String) (headers : List (String × String)) (body : RequestBody) : Event
  | httpGet (url : String) (headers : List (String × String)) : Event
  | consoleLog (msg : String) (payload : Option Json) : Event
  | consoleError (msg : String) (payload : Option Json) : Event
  | fileWrite (filepath : String) (contents : String) : Event
  | processExit (code : Nat) : Event

/-- Is the event an outbound network call? -/
def Event.isHttp : Event → Bool
  | Event.httpPost _ _ _ => true
  | Event.httpGet _ _ => true
  | _ => false

/-- Is the event an HTTP GET? -/
def Event.isGet : Event → Bool
  | Event.httpGet _ _ => true
  | _ => false

/-- Is the event a filesystem write? -/
def Event.isFileWrite : Event → Bool
  | Event.fileWrite _ _ => true
  | _ => false

/-- A decoded HTTP response as axios delivers it: status plus parsed body. -/
structure AxiosResponse where
  status : Nat
  data : Json

/-- The error axios throws: a message, and the response when one was
received (absent on pure transport failure). -/
structure AxiosError where
  message : String
  response : Option AxiosResponse

/-- Outcome of a JS async function in this program: a value, a
`process.exit` (uncatchable), or a thrown error. -/
inductive JsOutcome (α : Type) where
  | ok (a : α) : JsOutcome α
  | exited (code : Nat) : JsOutcome α
  | threw (e : AxiosError) : JsOutcome α

/-- Did the status code denote success to axios? -/
def is2xx (status : Nat) : Bool := 200 ≤ status && status < 300

/-- What a single axios call yields, given the environment's raw answer: a
transport failure becomes an error without response; a non-2xx response
becomes an error carrying that response with axios's fixed message; a 2xx
response resolves. -/
def axiosResult : Except String AxiosResponse → Except AxiosError AxiosResponse
  | Except.error msg => Except.error ⟨msg, none⟩
  | Except.ok r =>
      if is2xx r.status then Except.ok r
      else Except.error
        ⟨"Request failed with status code " ++ String.mk (natChars r.status), some r⟩

/-- `error.response?.data || error.message`: the payload every catch block in
the source hands to `console.error` — the remote body when present and
truthy, the error message otherwise. -/
def jsErrorReport (e : AxiosError) : Json :=
  match e.response with
  | some r => if jsonTruthy r.data then r.data else Json.str e.message
  | none => Json.str e.message

/-- The five required configuration fields, in the order the source checks
them (`dataconnect.js` line 41). -/
def requiredFields : List String :=
  ["grant_type", "client_id", "client_secret", "username", "password"]

/-- Truthiness of `config[field]` for a string-valued configuration mapping:
false exactly when the field is absent or the empty string. -/
def configTruthy : Option String → Bool
  | none => false
  | some s => !(s == "")

/-- `authenticateSalesforce` (`dataconnect.js` lines 10-68) from the point
where the configuration has been read and parsed (the existence and parse
checks of lines 14-38 concern the external configuration file).  Inputs: the
parsed configuration and the environment's raw answer to the token-exchange
POST.  Output: the emitted events and the function's outcome. -/
def authenticateSalesforce (config : List (String × String))
    (tokenRaw : Except String AxiosResponse) : List Event × JsOutcome Json :=
  match requiredFields.find? (fun f => !configTruthy (config.lookup f)) with
  | some field =>
      ([Event.consoleError
          ("Error: Missing required field \"" ++ field ++ "\" in configuration file.")
          none,
        Event.processExit 1], JsOutcome.exited 1)
  | none =>
      let data := qsStringify config
      let postEv := Event.httpPost "https://login.salesforce.com/services/oauth2/token"
        [("Content-Type", "application/x-www-form-urlencoded")] (RequestBody.form data)
      match axiosResult tokenRaw with
      | Except.ok response =>
          ([postEv,
            Event.consoleLog "Authentication successful. access_token recieved." none],
           JsOutcome.ok response.data)
      | Except.error e =>
          ([postEv,
            Event.consoleError "Authentication failed:" (some (jsErrorReport e))],
           JsOutcome.threw e)

/-- `createLead` (`dataconnect.js` lines 83-98): one POST of the lead data to
the sobjects endpoint with a bearer header; resolves to the decoded response
body, logs and rethrows on failure. -/
def createLead (instanceUrl accessToken : String) (leadData : Json)
    (raw : Except String AxiosResponse) : List Event × JsOutcome Json :=
  let endpoint := instanceUrl ++ "/services/data/v57.0/sobjects/Lead"
  let headers := [("Authorization", "Bearer " ++ accessToken),
    ("Content-Type", "application/json")]
  let postEv := Event.httpPost endpoint headers (RequestBody.json leadData)
  match axiosResult raw with
  | Except.ok response =>
      ([postEv, Event.consoleLog "Lead created successfully:" (some response.data)],
       JsOutcome.ok response.data)
  | Except.error e =>
      ([postEv, Event.consoleError "Error creating lead:" (some (jsErrorReport e))],
       JsOutcome.threw e)

/-- `getLeadDetails` (`dataconnect.js` lines 107-122): one GET of the record
URL carrying only the bearer header; resolves to the decoded response body,
logs and rethrows on failure. -/
def getLeadDetails (instanceUrl accessToken leadId : String)
    (raw : Except String AxiosResponse) : List Event × JsOutcome Json :=
  let endpoint := instanceUrl ++ "/services/data/v57.0/sobjects/Lead/" ++ leadId
  let headers := [("Authorization", "Bearer " ++ accessToken)]
  let getEv := Event.httpGet endpoint headers
  match axiosResult raw with
  | Except.ok response =>
      ([getEv, Event.consoleLog "Lead details retrieved successfully:" none,
        Event.consoleLog (jsonStringify2 response.data) none],
       JsOutcome.ok response.data)
  | Except.error e =>
      ([getEv, Event.consoleError "Error retrieving lead details:" (some (jsErrorReport e))],
       JsOutcome.threw e)

/-- `new Date().toISOString().replace(/[:.]/g, '-')` (`dataconnect.js` line
129): every colon and period of the clock's ISO-8601 string becomes a
hyphen. -/
def sanitizeTimestamp (now : String) : String :=
  String.mk (now.data.map (fun c => if c = ':' || c = '.' then '-' else c))

/-- `saveLeadToFile` (`dataconnect.js` lines 128-139).  `dirname` models
`__dirname` (the script's own directory), `now` the clock's ISO-8601 string,
`writeResult` the filesystem's answer to `fs.writeFileSync` (the `fileWrite`
event records the invocation of `writeFileSync` with its arguments;
`writeResult` tells whether the OS write succeeded).  Note the catch block:
a write failure is logged and swallowed, the function still returns
normally. -/
def saveLeadToFile (dirname now : String) (leadDetails : Json)
    (writeResult : Except String Unit) : List Event × JsOutcome Unit :=
  let timestamp := sanitizeTimestamp now
  let filename := "lead-" ++ timestamp ++ ".json"
  let filepath := dirname ++ "/" ++ filename
  match writeResult with
  | Except.ok _ =>
      ([Event.fileWrite filepath (jsonStringify2 leadDetails),
        Event.consoleLog ("Lead details saved to file: " ++ filename) none],
       JsOutcome.ok ())
  | Except.error msg =>
      ([Event.fileWrite filepath (jsonStringify2 leadDetails),
        Event.consoleError "Error saving lead details to file:" (some (Json.str msg))],
       JsOutcome.ok ())

/-- The orchestrating IIFE (`dataconnect.js` lines 141-168).  Environment
inputs: the parsed configuration, the raw network answers to the three HTTP
calls, whether `leadModel.json` exists and its parsed contents, `__dirname`,
the clock, and the filesystem's answer to the write.  A `process.exit` ends
the run; a thrown error is caught by the top-level catch, which logs
`"Error:"` with the error's message. -/
def mainRun (config : List (String × String))
    (tokenRaw : Except String AxiosResponse) (leadModelExists : Bool)
    (leadData : Json) (createRaw getRaw : Except String AxiosResponse)
    (dirname now : String) (writeResult : Except String Unit) : List Event :=
  let auth := authenticateSalesforce config tokenRaw
  match auth.2 with
  | JsOutcome.exited _ => auth.1
  | JsOutcome.threw e =>
      auth.1 ++ [Event.consoleError "Error:" (some (Json.str e.message))]
  | JsOutcome.ok authResponse =>
    let instance_url := jsOptToString (jsGetField authResponse "instance_url")
    let access_token := jsOptToString (jsGetField authResponse "access_token")
    if !leadModelExists then
      auth.1 ++ [Event.consoleError
        "Error: leadModel.json not found. Please create the file with lead data." none,
        Event.processExit 1]
    else
      let create := createLead instance_url access_token leadData createRaw
      match create.2 with
      | JsOutcome.exited _ => auth.1 ++ create.1
      | JsOutcome.threw e =>
          auth.1 ++ create.1 ++ [Event.consoleError "Error:" (some (Json.str e.message))]
      | JsOutcome.ok createResponse =>
        let leadId := jsOptToString (jsGetField createResponse "id")
        let got := getLeadDetails instance_url access_token leadId getRaw
        match got.2 with
        | JsOutcome.exited _ => auth.1 ++ create.1 ++ got.1
        | JsOutcome.threw e =>
            auth.1 ++ create.1 ++ got.1 ++
              [Event.consoleError "Error:" (some (Json.str e.message))]
        | JsOutcome.ok leadDetails =>
            auth.1 ++ create.1 ++ got.1 ++
              (saveLeadToFile dirname now leadDetails writeResult).1

/-- The spec's notion of a defective required field: absent from the
configuration mapping, or present but empty. -/
def fieldAbsentOrEmpty (config : List (String × String)) (f : String) : Prop :=
  config.lookup f = none ∨ config.lookup f = some ""

instance (config : List (String × String)) (f : String) :
    Decidable (fieldAbsentOrEmpty config f) := by
  unfold fieldAbsentOrEmpty; infer_instance

/-- A configuration that passes validation: none of the five required fields
is absent or empty. -/
def validConfig (config : List (String × String)) : Prop :=
  ∀ g ∈ requiredFields, ¬ fieldAbsentOrEmpty config g

instance (config : List (String × String)) : Decidable (validConfig config) := by
  unfold validConfig; infer_instance

/-- The final path segment of a URL: everything after the last `/` (the whole
string when there is no `/`). -/
def lastSegmentChars (cs : List Char) : List Char :=
  (cs.reverse.takeWhile (fun c => !(c == '/'))).reverse

/-- The final path segment of a URL, as a string. -/
def lastSegment (s : String) : String := String.mk (lastSegmentChars s.data)

/-- Splitting a character sequence at every `&`, the inverse view of the form
body's `&`-joined pairs. -/
def splitAmpChars : List Char → List (List Char)
  | [] => [[]]
  | c :: cs =>
      if c = '&' then [] :: splitAmpChars cs
      else
        match splitAmpChars cs with
        | [] => [[c]]
        | g :: gs => (c :: g) :: gs

/-- Splitting a form body string at every `&`. -/
def splitAmp (s : String) : List String := (splitAmpChars s.data).map String.mk

/-- JSON whitespace. -/
def isWsChar (c : Char) : Bool :=
  c == ' ' || c == '\n' || c == '\t' || c == '\x0d'

/-- Drops leading JSON whitespace. -/
def skipWs : List Char → List Char
  | [] => []
  | c :: cs => if isWsChar c then skipWs cs else c :: cs

/-- Numeric value of a decimal digit character. -/
def digitVal (c : Char) : Nat := c.toNat - 48

/-- Is the character a hexadecimal digit? -/
def isHexDigitChar (c : Char) : Bool :=
  c.isDigit || ('a' ≤ c && c ≤ 'f') || ('A' ≤ c && c ≤ 'F')

/-- Numeric value of a hexadecimal digit character. -/
def hexVal (c : Char) : Nat :=
  if c.isDigit then c.toNat - 48
  else if 'a' ≤ c && c ≤ 'f' then c.toNat - 87
  else if 'A' ≤ c && c ≤ 'F' then c.toNat - 55
  else 0

/-- Consumes a maximal run of decimal digits, accumulating their value. -/
def parseDigits (acc : Nat) : List Char → Nat × List Char
  | [] => (acc, [])
  | c :: cs => if c.isDigit then parseDigits (acc * 10 + digitVal c) cs else (acc, c :: cs)

/-- Parses a JSON integer numeral: an optional minus sign followed by
digits. -/
def parseNumberChars (cs : List Char) : Option (Json × List Char) :=
  match cs with
  | [] => none
  | c :: cs0 =>
      if c = '-' then
        match cs0 with
        | c2 :: _ =>
            if c2.isDigit then
              match parseDigits 0 cs0 with
              | (n, rest) => some (Json.num (-(n : Int)), rest)
            else none
        | [] => none
      else if c.isDigit then
        match parseDigits 0 (c :: cs0) with
        | (n, rest) => some (Json.num ((n : Int)), rest)
      else none

/-- Parses the body of a JSON string literal after the opening quote, escape
sequences included, up to and including the closing quote. -/
def parseStringChars : List Char → Option (List Char × List Char)
  | [] => none
  | '"' :: rest => some ([], rest)
  | '\\' :: e :: rest =>
      match e with
      | '"' => (parseStringChars rest).map (fun p => ('"' :: p.1, p.2))
      | '\\' => (parseStringChars rest).map (fun p => ('\\' :: p.1, p.2))
      | '/' => (parseStringChars rest).map (fun p => ('/' :: p.1, p.2))
      | 'b' => (parseStringChars rest).map (fun p => ('\x08' :: p.1, p.2))
      | 'f' => (parseStringChars rest).map (fun p => ('\x0c' :: p.1, p.2))
      | 'n' => (parseStringChars rest).map (fun p => ('\x0a' :: p.1, p.2))
      | 'r' => (parseStringChars rest).map (fun p => ('\x0d' :: p.1, p.2))
      | 't' => (parseStringChars rest).map (fun p => ('\x09' :: p.1, p.2))
      | 'u' =>
          match rest with
          | h1 :: h2 :: h3 :: h4 :: rest2 =>
              if isHexDigitChar h1 && isHexDigitChar h2 && isHexDigitChar h3 && isHexDigitChar h4 then
                (parseStringChars rest2).map (fun p =>
                  (Char.ofNat
                      (((hexVal h1 * 16 + hexVal h2) * 16 + hexVal h3) * 16 + hexVal h4) ::
                    p.1, p.2))
              else none
          | _ => none
      | _ => none
  | c :: rest => (parseStringChars rest).map (fun p => (c :: p.1, p.2))

mutual
/-- Recursive-descent parser for one JSON value; the fuel bounds nesting
depth and list length. -/
def parseValue : Nat → List Char → Option (Json × List Char)
  | 0, _ => none
  | fuel + 1, cs =>
      match skipWs cs with
      | 'n' :: 'u' :: 'l' :: 'l' :: rest => some (Json.null, rest)
      | 't' :: 'r' :: 'u' :: 'e' :: rest => some (Json.bool true, rest)
      | 'f' :: 'a' :: 'l' :: 's' :: 'e' :: rest => some (Json.bool false, rest)
      | '"' :: rest =>
          (parseStringChars rest).map (fun p => (Json.str (String.mk p.1), p.2))
      | '[' :: rest => parseArrayBody fuel (skipWs rest)
      | '\x7b' :: rest => parseObjectBody fuel (skipWs rest)
      | other => parseNumberChars other

/-- Parses an array's contents after the opening bracket and leading
whitespace. -/
def parseArrayBody : Nat → List Char → Option (Json × List Char)
  | 0, _ => none
  | fuel + 1, cs =>
      match cs with
      | ']' :: rest => some (Json.arr [], rest)
      | _ => (parseElems fuel cs).map (fun p => (Json.arr p.1, p.2))

/-- Parses an object's contents after the opening brace and leading
whitespace. -/
def parseObjectBody : Nat → List Char → Option (Json × List Char)
  | 0, _ => none
  | fuel + 1, cs =>
      match cs with
      | '\x7d' :: rest => some (Json.obj [], rest)
      | _ => (parseMembers fuel cs).map (fun p => (Json.obj p.1, p.2))

/-- Parses the elements of a non-empty array, consuming the closing
bracket. -/
def parseElems : Nat → List Char → Option (List Json × List Char)
  | 0, _ => none
  | fuel + 1, cs =>
      (parseValue fuel cs).bind (fun p => parseElemsTail fuel p.1 (skipWs p.2))

/-- After one array element: a comma continues the element list, a closing
bracket ends it. -/
def parseElemsTail : Nat → Json → List Char → Option (List Json × List Char)
  | 0, _, _ => none
  | fuel + 1, v, cs =>
      match cs with
      | ',' :: cs2 => (parseElems fuel cs2).map (fun q => (v :: q.1, q.2))
      | ']' :: cs2 => some ([v], cs2)
      | _ => none

/-- Parses the members of a non-empty object, consuming the closing brace. -/
def parseMembers : Nat → List Char → Option (List (String × Json) × List Char)
  | 0, _ => none
  | fuel + 1, cs =>
      match skipWs cs with
      | '"' :: cs0 =>
          (parseStringChars cs0).bind (fun q =>
            match skipWs q.2 with
            | ':' :: cs2 =>
                (parseValue fuel cs2).bind (fun p =>
                  parseMembersTail fuel (String.mk q.1) p.1 (skipWs p.2))
            | _ => none)
      | _ => none

/-- After one object member: a comma continues the member list, a closing
brace ends it. -/
def parseMembersTail :
    Nat → String → Json → List Char → Option (List (String × Json) × List Char)
  | 0, _, _, _ => none
  | fuel + 1, k, v, cs =>
      match cs with
      | ',' :: cs4 => (parseMembers fuel cs4).map (fun q => ((k, v) :: q.1, q.2))
      | '\x7d' :: cs4 => some ([(k, v)], cs4)
      | _ => none
end

/-- `JSON.parse`: parses a complete JSON document (the fuel
`length + 1` always suffices since every nesting level consumes input). -/
def jsonParse (s : String) : Option Json :=
  match parseValue (s.data.length + 1) s.data with
  | some (v, rest) => if skipWs rest = [] then some v else none
  | none => none

mutual
/-- Fuel sufficient for `parseValue` on this value's serialized form. -/
def parseFuel : Json → Nat
  | Json.null => 1
  | Json.bool _ => 1
  | Json.num _ => 1
  | Json.str _ => 1
  | Json.arr xs => 2 + parseFuelElems xs
  | Json.obj fs => 2 + parseFuelMembers fs

/-- Fuel sufficient for `parseElems` on these elements' serialized form. -/
def parseFuelElems : List Json → Nat
  | [] => 1
  | x :: xs => 2 + parseFuel x + parseFuelElems xs

/-- Fuel sufficient for `parseMembers` on these members' serialized form. -/
def parseFuelMembers : List (String × Json) → Nat
  | [] => 1
  | (_, v) :: fs => 2 + parseFuel v + parseFuelMembers fs
end

/-- The input begins with nothing that could extend a decimal numeral. -/
def headNotDigit : List Char → Prop
  | [] => True
  | c :: _ => c.isDigit = false

/-- Digit-run accumulator, the specification of `parseDigits`. -/
def pushDigits (acc : Nat) (ds : List Char) : Nat :=
  ds.foldl (fun a c => a * 10 + digitVal c) acc

theorem configTruthy_false_iff (o : Option String) :
    configTruthy o = false ↔ (o = none ∨ o = some "") := by
  cases o with
  | none => simp [configTruthy]
  | some s => simp [configTruthy]

theorem configTruthy_true_of (o : Option String)
    (h : ¬(o = none ∨ o = some "")) : configTruthy o = true := by
  cases ho : configTruthy o with
  | true => rfl
  | false => exact absurd ((configTruthy_false_iff o).mp ho) h

theorem find?_first {α : Type} (p : α → Bool) (pre : List α) (suf : List α) (f : α)
    (hpre : ∀ g ∈ pre, p g = false) (hf : p f = true) :
    List.find? p (pre ++ f :: suf) = some f := by
  induction pre with
  | nil => simp [List.find?, hf]
  | cons a l ih =>
      have ha : p a = false := hpre a (List.mem_cons_self a l)
      simp only [List.cons_append, List.find?, ha]
      exact ih (fun g hg => hpre g (List.mem_cons_of_mem a hg))

theorem valid_find?_eq_none (config : List (String × String))
    (h : validConfig config) :
    requiredFields.find? (fun g => !configTruthy (config.lookup g)) = none := by
  rw [List.find?_eq_none]
  intro g hg
  have ht : configTruthy (config.lookup g) = true :=
    configTruthy_true_of _ (by simpa [fieldAbsentOrEmpty] using h g hg)
  simp [ht]

/-- C1: for every configuration in which some required field is absent or
empty, `authenticateSalesforce` reports the first such field in the fixed
order `grant_type, client_id, client_secret, username, password`, exits, and
attempts no network call. -/
theorem auth_missing_field_first_report_no_network
    (config : List (String × String)) (tokenRaw : Except String AxiosResponse)
    (f : String) (pre suf : List String)
    (hsplit : requiredFields = pre ++ f :: suf)
    (hprev : ∀ g ∈ pre, ¬ fieldAbsentOrEmpty config g)
    (hbad : fieldAbsentOrEmpty config f) :
    authenticateSalesforce config tokenRaw =
      ([Event.consoleError
          ("Error: Missing required field \"" ++ f ++ "\" in configuration file.") none,
        Event.processExit 1], JsOutcome.exited 1) ∧
    ∀ e ∈ (authenticateSalesforce config tokenRaw).1, e.isHttp = false := by
  have hbad' : configTruthy (config.lookup f) = false :=
    (configTruthy_false_iff _).mpr hbad
  have hfind : requiredFields.find? (fun g => !configTruthy (config.lookup g)) = some f := by
    rw [hsplit]
    apply find?_first
    · intro g hg
      have ht : configTruthy (config.lookup g) = true :=
        configTruthy_true_of _ (by simpa [fieldAbsentOrEmpty] using hprev g hg)
      simp [ht]
    · simp [hbad']
  have hmain : authenticateSalesforce config tokenRaw =
      ([Event.consoleError
          ("Error: Missing required field \"" ++ f ++ "\" in configuration file.") none,
        Event.processExit 1], JsOutcome.exited 1) := by
    unfold authenticateSalesforce
    rw [hfind]
  refine ⟨hmain, ?_⟩
  rw [hmain]
  intro e he
  simp only [List.mem_cons, List.not_mem_nil, or_false] at he
  rcases he with rfl | rfl <;> rfl

/-- C1 witness: a concrete configuration whose first defective required field
is `client_secret` (absent), with `grant_type` and `client_id` present. -/
theorem auth_missing_field_first_report_no_network_witness :
    requiredFields = ["grant_type", "client_id"] ++ "client_secret" :: ["username", "password"] ∧
    authenticateSalesforce
        [("grant_type", "password"), ("client_id", "abc"),
         ("username", "u"), ("password", "p")] (Except.error "unreachable") =
      ([Event.consoleError
          "Error: Missing required field \"client_secret\" in configuration file." none,
        Event.processExit 1], JsOutcome.exited 1) :=
  ⟨rfl,
   (auth_missing_field_first_report_no_network
      [("grant_type", "password"), ("client_id", "abc"),
        ("username", "u"), ("password", "p")] (Except.error "unreachable")
      "client_secret" ["grant_type", "client_id"] ["username", "password"]
      rfl (by decide) (by decide)).1⟩

theorem valid_config_ne_nil (config : List (String × String))
    (h : validConfig config) : config ≠ [] := by
  intro hnil
  subst hnil
  exact h "grant_type" (by simp [requiredFields]) (Or.inl rfl)

theorem auth_valid_trace (config : List (String × String))
    (tokenRaw : Except String AxiosResponse) (hvalid : validConfig config) :
    (authenticateSalesforce config tokenRaw).1 =
      Event.httpPost "https://login.salesforce.com/services/oauth2/token"
        [("Content-Type", "application/x-www-form-urlencoded")]
        (RequestBody.form (qsStringify config)) ::
      (match axiosResult tokenRaw with
       | Except.ok _ =>
           [Event.consoleLog "Authentication successful. access_token recieved." none]
       | Except.error e =>
           [Event.consoleError "Authentication failed:" (some (jsErrorReport e))]) := by
  unfold authenticateSalesforce
  rw [valid_find?_eq_none config hvalid]
  cases axiosResult tokenRaw with
  | ok r => rfl
  | error e => rfl

/-- C5: for a valid configuration and a successful (2xx) token response whose
body carries `access_token` and `instance_url`, the authenticator resolves to
exactly the decoded response body. -/
theorem auth_success_returns_decoded_body (config : List (String × String))
    (tokenRaw : Except String AxiosResponse) (r : AxiosResponse)
    (hvalid : validConfig config) (hraw : tokenRaw = Except.ok r)
    (h2xx : is2xx r.status = true)
    (htok : (jsGetField r.data "access_token").isSome = true)
    (hurl : (jsGetField r.data "instance_url").isSome = true) :
    (authenticateSalesforce config tokenRaw).2 = JsOutcome.ok r.data := by
  subst hraw
  unfold authenticateSalesforce
  rw [valid_find?_eq_none config hvalid]
  simp only [axiosResult, h2xx, if_true]

/-- C5 witness: a complete concrete configuration and a concrete 2xx token
response; the authenticator returns that response's body. -/
theorem auth_success_returns_decoded_body_witness :
    validConfig
      [("grant_type", "password"), ("client_id", "cid"), ("client_secret", "sec"),
       ("username", "u"), ("password", "pw")] ∧
    (authenticateSalesforce
        [("grant_type", "password"), ("client_id", "cid"), ("client_secret", "sec"),
         ("username", "u"), ("password", "pw")]
        (Except.ok ⟨200,
          Json.obj [("access_token", Json.str "tok"),
            ("instance_url", Json.str "https://na1.salesforce.com")]⟩)).2 =
      JsOutcome.ok
        (Json.obj [("access_token", Json.str "tok"),
          ("instance_url", Json.str "https://na1.salesforce.com")]) :=
  ⟨by decide,
   auth_success_returns_decoded_body _ _
     ⟨200, Json.obj [("access_token", Json.str "tok"),
       ("instance_url", Json.str "https://na1.salesforce.com")]⟩
     (by decide) rfl (by decide) (by decide) (by decide)⟩

/-- C7: for every complete configuration, the authenticator issues exactly one
network request: a POST to the fixed token-exchange endpoint with content-type
`application/x-www-form-urlencoded` and the configuration serialized by
`qs.stringify` as its form body. -/
theorem auth_single_post_form_encoded (config : List (String × String))
    (tokenRaw : Except String AxiosResponse) (hvalid : validConfig config) :
    (authenticateSalesforce config tokenRaw).1.filter Event.isHttp =
      [Event.httpPost "https://login.salesforce.com/services/oauth2/token"
        [("Content-Type", "application/x-www-form-urlencoded")]
        (RequestBody.form (qsStringify config))] := by
  rw [auth_valid_trace config tokenRaw hvalid]
  cases axiosResult tokenRaw with
  | ok r => rfl
  | error e => rfl

/-- C7 witness: a concrete complete configuration; the lone network request is
the form-encoded POST to the token endpoint. -/
theorem auth_single_post_form_encoded_witness :
    validConfig
      [("grant_type", "password"), ("client_id", "cid"), ("client_secret", "sec"),
       ("username", "u"), ("password", "pw")] ∧
    (authenticateSalesforce
        [("grant_type", "password"), ("client_id", "cid"), ("client_secret", "sec"),
         ("username", "u"), ("password", "pw")] (Except.ok ⟨200, Json.null⟩)).1.filter
        Event.isHttp =
      [Event.httpPost "https://login.salesforce.com/services/oauth2/token"
        [("Content-Type", "application/x-www-form-urlencoded")]
        (RequestBody.form (qsStringify
          [("grant_type", "password"), ("client_id", "cid"), ("client_secret", "sec"),
           ("username", "u"), ("password", "pw")]))] :=
  ⟨by decide, auth_single_post_form_encoded _ (Except.ok ⟨200, Json.null⟩) (by decide)⟩

theorem digitChar_ne_amp (n : Nat) : digitChar n ≠ '&' := by
  unfold digitChar; split <;> decide

theorem hexCharUpper_ne_amp (n : Nat) : hexCharUpper n ≠ '&' := by
  unfold hexCharUpper
  split_ifs <;> first | exact digitChar_ne_amp n | decide

theorem mem_percentByte_ne_amp (b : Nat) (c : Char) (hc : c ∈ percentByte b) :
    c ≠ '&' := by
  simp only [percentByte, List.mem_cons, List.not_mem_nil, or_false] at hc
  rcases hc with rfl | rfl | rfl
  · decide
  · exact hexCharUpper_ne_amp _
  · exact hexCharUpper_ne_amp _

theorem amp_not_mem_percentEncodeChars (cs : List Char) :
    '&' ∉ percentEncodeChars cs := by
  induction cs with
  | nil => simp [percentEncodeChars]
  | cons c cs ih =>
      intro hmem
      rcases List.mem_append.mp hmem with h | h
      · by_cases hu : isUnreserved c = true
        · rw [if_pos hu] at h
          simp only [List.mem_singleton] at h
          subst h
          exact absurd hu (by decide)
        · rw [if_neg hu] at h
          rcases List.mem_flatMap.mp h with ⟨b, _, hb⟩
          exact mem_percentByte_ne_amp b _ hb rfl
      · exact ih h

theorem amp_not_mem_encodePairChars (kv : String × String) :
    '&' ∉ encodePairChars kv := by
  unfold encodePairChars
  intro h
  rcases List.mem_append.mp h with h | h
  · exact amp_not_mem_percentEncodeChars _ h
  · rcases List.mem_cons.mp h with h | h
    · exact absurd h (by decide)
    · exact amp_not_mem_percentEncodeChars _ h

theorem splitAmpChars_no_amp (cs : List Char) (h : '&' ∉ cs) :
    splitAmpChars cs = [cs] := by
  induction cs with
  | nil => rfl
  | cons c cs ih =>
      have hc : ¬(c = '&') := fun hc => h (hc ▸ List.mem_cons_self c cs)
      have ih' := ih (fun hm => h (List.mem_cons_of_mem c hm))
      simp [splitAmpChars, hc, ih']

theorem splitAmpChars_append (pre rest : List Char) (h : '&' ∉ pre) :
    splitAmpChars (pre ++ '&' :: rest) = pre :: splitAmpChars rest := by
  induction pre with
  | nil => simp [splitAmpChars]
  | cons c cs ih =>
      have hc : ¬(c = '&') := fun hc => h (hc ▸ List.mem_cons_self c cs)
      have ih' := ih (fun hm => h (List.mem_cons_of_mem c hm))
      simp [splitAmpChars, hc, ih']

theorem splitAmpChars_qsStringify (config : List (String × String))
    (hne : config ≠ []) :
    splitAmpChars (qsStringifyChars config) = config.map encodePairChars := by
  induction config with
  | nil => exact absurd rfl hne
  | cons kv kvs ih =>
      cases kvs with
      | nil =>
          simp [qsStringifyChars,
            splitAmpChars_no_amp _ (amp_not_mem_encodePairChars kv)]
      | cons kv2 kvs2 =>
          have ih' := ih (by simp)
          have hq : qsStringifyChars (kv :: kv2 :: kvs2) =
              encodePairChars kv ++ '&' :: qsStringifyChars (kv2 :: kvs2) := rfl
          rw [hq, splitAmpChars_append _ _ (amp_not_mem_encodePairChars kv), ih']
          rfl

theorem encodePair_string (kv : String × String) :
    String.mk (encodePairChars kv) = percentEncode kv.1 ++ "=" ++ percentEncode kv.2 := by
  apply String.ext
  show encodePairChars kv = (percentEncodeChars kv.1.data ++ ['=']) ++ percentEncodeChars kv.2.data
  unfold encodePairChars
  simp

/-- C10: for every configuration that passes validation, the form body sent
to the token endpoint is the `&`-join of the percent-encoded `key=value`
pairs of the whole configuration in order — every pair, extra keys included,
appears verbatim and none is filtered out. -/
theorem auth_form_body_all_pairs_verbatim (config : List (String × String))
    (tokenRaw : Except String AxiosResponse) (hvalid : validConfig config) :
    Event.httpPost "https://login.salesforce.com/services/oauth2/token"
        [("Content-Type", "application/x-www-form-urlencoded")]
        (RequestBody.form (qsStringify config)) ∈
      (authenticateSalesforce config tokenRaw).1 ∧
    splitAmp (qsStringify config) =
      config.map (fun kv => percentEncode kv.1 ++ "=" ++ percentEncode kv.2) ∧
    ∀ kv ∈ config,
      (percentEncode kv.1 ++ "=" ++ percentEncode kv.2) ∈ splitAmp (qsStringify config) := by
  have hsplit : splitAmp (qsStringify config) =
      config.map (fun kv => percentEncode kv.1 ++ "=" ++ percentEncode kv.2) := by
    unfold splitAmp qsStringify
    rw [show (String.mk (qsStringifyChars config)).data = qsStringifyChars config from rfl]
    rw [splitAmpChars_qsStringify config (valid_config_ne_nil config hvalid)]
    rw [List.map_map]
    exact List.map_congr_left fun kv _ => encodePair_string kv
  refine ⟨?_, hsplit, ?_⟩
  · rw [auth_valid_trace config tokenRaw hvalid]
    exact List.mem_cons_self _ _
  · intro kv hkv
    rw [hsplit]
    exact List.mem_map_of_mem _ hkv

/-- C10 witness: a configuration with the five credential fields plus an
extra key; the form body splits into the six encoded pairs in order, the
extra pair included. -/
theorem auth_form_body_all_pairs_verbatim_witness :
    validConfig
      [("grant_type", "password"), ("client_id", "cid"), ("client_secret", "sec"),
       ("username", "u"), ("password", "pw"), ("extra_key", "extra value")] ∧
    splitAmp (qsStringify
      [("grant_type", "password"), ("client_id", "cid"), ("client_secret", "sec"),
       ("username", "u"), ("password", "pw"), ("extra_key", "extra value")]) =
      ["grant_type=password", "client_id=cid", "client_secret=sec",
       "username=u", "password=pw", "extra_key=extra%20value"] :=
  ⟨by decide,
   by
    have h := (auth_form_body_all_pairs_verbatim
      [("grant_type", "password"), ("client_id", "cid"), ("client_secret", "sec"),
       ("username", "u"), ("password", "pw"), ("extra_key", "extra value")]
      (Except.error "net") (by decide)).2.1
    rw [h]
    rfl⟩

/-- C6: `createLead` issues exactly one network request — a POST to the
instance base URL joined with the fixed sobjects path and the record type
name, with the lead data as JSON body and a bearer Authorization header —
and on a 2xx response resolves to the decoded response body unmodified. -/
theorem createLead_single_post_bearer_returns_body
    (instanceUrl accessToken : String) (leadData : Json)
    (raw : Except String AxiosResponse) :
    (createLead instanceUrl accessToken leadData raw).1.filter Event.isHttp =
      [Event.httpPost (instanceUrl ++ "/services/data/v57.0/sobjects/" ++ "Lead")
        [("Authorization", "Bearer " ++ accessToken),
         ("Content-Type", "application/json")]
        (RequestBody.json leadData)] ∧
    (∀ r, raw = Except.ok r → is2xx r.status = true →
      (createLead instanceUrl accessToken leadData raw).2 = JsOutcome.ok r.data) := by
  have hurl : instanceUrl ++ "/services/data/v57.0/sobjects/" ++ "Lead" =
      instanceUrl ++ "/services/data/v57.0/sobjects/Lead" := by
    rw [String.append_assoc]
    rfl
  rw [hurl]
  constructor
  · unfold createLead
    cases axiosResult raw with
    | ok r => rfl
    | error e => rfl
  · intro r hr h2
    subst hr
    unfold createLead
    simp only [axiosResult, h2, if_true]

/-- C6 witness: concrete URL, token, payload and a 2xx response carrying an
id; the lone request is the expected POST and the decoded body is returned. -/
theorem createLead_single_post_bearer_returns_body_witness :
    (createLead "https://na1.salesforce.com" "tok"
        (Json.obj [("LastName", Json.str "Doe")])
        (Except.ok ⟨201, Json.obj [("id", Json.str "00Q1"), ("success", Json.bool true)]⟩)).1.filter
        Event.isHttp =
      [Event.httpPost
        ("https://na1.salesforce.com" ++ "/services/data/v57.0/sobjects/" ++ "Lead")
        [("Authorization", "Bearer " ++ "tok"), ("Content-Type", "application/json")]
        (RequestBody.json (Json.obj [("LastName", Json.str "Doe")]))] ∧
    (createLead "https://na1.salesforce.com" "tok"
        (Json.obj [("LastName", Json.str "Doe")])
        (Except.ok ⟨201, Json.obj [("id", Json.str "00Q1"), ("success", Json.bool true)]⟩)).2 =
      JsOutcome.ok (Json.obj [("id", Json.str "00Q1"), ("success", Json.bool true)]) :=
  ⟨(createLead_single_post_bearer_returns_body "https://na1.salesforce.com" "tok"
      (Json.obj [("LastName", Json.str "Doe")])
      (Except.ok ⟨201, Json.obj [("id", Json.str "00Q1"), ("success", Json.bool true)]⟩)).1,
   (createLead_single_post_bearer_returns_body "https://na1.salesforce.com" "tok"
      (Json.obj [("LastName", Json.str "Doe")])
      (Except.ok ⟨201, Json.obj [("id", Json.str "00Q1"), ("success", Json.bool true)]⟩)).2
     ⟨201, Json.obj [("id", Json.str "00Q1"), ("success", Json.bool true)]⟩ rfl (by decide)⟩

theorem auth_valid_ok (config : List (String × String)) (tr : AxiosResponse)
    (hvalid : validConfig config) (h2 : is2xx tr.status = true) :
    authenticateSalesforce config (Except.ok tr) =
      ([Event.httpPost "https://login.salesforce.com/services/oauth2/token"
          [("Content-Type", "application/x-www-form-urlencoded")]
          (RequestBody.form (qsStringify config)),
        Event.consoleLog "Authentication successful. access_token recieved." none],
       JsOutcome.ok tr.data) := by
  unfold authenticateSalesforce
  rw [valid_find?_eq_none config hvalid]
  simp only [axiosResult, h2, if_true]

theorem createLead_ok (iu tok : String) (leadData : Json) (cr : AxiosResponse)
    (hc2 : is2xx cr.status = true) :
    createLead iu tok leadData (Except.ok cr) =
      ([Event.httpPost (iu ++ "/services/data/v57.0/sobjects/Lead")
          [("Authorization", "Bearer " ++ tok), ("Content-Type", "application/json")]
          (RequestBody.json leadData),
        Event.consoleLog "Lead created successfully:" (some cr.data)],
       JsOutcome.ok cr.data) := by
  unfold createLead
  simp only [axiosResult, hc2, if_true]

theorem jsOptToString_some_str (s : String) :
    jsOptToString (some (Json.str s)) = s := rfl

theorem mainRun_happy_path (config : List (String × String)) (tr cr : AxiosResponse)
    (getRaw : Except String AxiosResponse) (leadData : Json)
    (dirname now : String) (writeResult : Except String Unit) (iu tok : String)
    (hvalid : validConfig config) (h2 : is2xx tr.status = true)
    (hiu : jsGetField tr.data "instance_url" = some (Json.str iu))
    (htk : jsGetField tr.data "access_token" = some (Json.str tok))
    (hc2 : is2xx cr.status = true) :
    mainRun config (Except.ok tr) true leadData (Except.ok cr) getRaw dirname now writeResult =
      (authenticateSalesforce config (Except.ok tr)).1 ++
      (createLead iu tok leadData (Except.ok cr)).1 ++
      (getLeadDetails iu tok (jsOptToString (jsGetField cr.data "id")) getRaw).1 ++
      (match (getLeadDetails iu tok (jsOptToString (jsGetField cr.data "id")) getRaw).2 with
       | JsOutcome.ok d => (saveLeadToFile dirname now d writeResult).1
       | JsOutcome.threw e => [Event.consoleError "Error:" (some (Json.str e.message))]
       | JsOutcome.exited _ => []) := by
  unfold mainRun
  rw [auth_valid_ok config tr hvalid h2]
  simp only [hiu, htk, jsOptToString_some_str, Bool.not_true,
    Bool.false_eq_true, if_false]
  rw [createLead_ok iu tok leadData cr hc2]
  cases hg : (getLeadDetails iu tok (jsOptToString (jsGetField cr.data "id")) getRaw).2 <;>
    simp [hg]

theorem getLeadDetails_filter_get (iu tok lid : String)
    (raw : Except String AxiosResponse) :
    (getLeadDetails iu tok lid raw).1.filter Event.isGet =
      [Event.httpGet (iu ++ "/services/data/v57.0/sobjects/Lead/" ++ lid)
        [("Authorization", "Bearer " ++ tok)]] := by
  unfold getLeadDetails
  cases axiosResult raw with
  | ok r => rfl
  | error e => rfl

theorem saveLeadToFile_filter_get (dirname now : String) (rec : Json)
    (writeResult : Except String Unit) :
    (saveLeadToFile dirname now rec writeResult).1.filter Event.isGet = [] := by
  unfold saveLeadToFile
  cases writeResult with
  | ok u => rfl
  | error m => rfl

theorem takeWhile_append_all {α : Type} (p : α → Bool) (l1 l2 : List α)
    (h : ∀ a ∈ l1, p a = true) :
    (l1 ++ l2).takeWhile p = l1 ++ l2.takeWhile p := by
  induction l1 with
  | nil => simp
  | cons a l ih =>
      have ha := h a (List.mem_cons_self a l)
      simp [List.takeWhile_cons, ha,
        ih (fun b hb => h b (List.mem_cons_of_mem a hb))]

theorem lastSegmentChars_append (base seg : List Char)
    (h : ∀ c ∈ seg, (c == '/') = false) :
    lastSegmentChars (base ++ '/' :: seg) = seg := by
  unfold lastSegmentChars
  rw [List.reverse_append, List.reverse_cons]
  have hall : ∀ c ∈ seg.reverse, (!(c == '/')) = true := by
    intro c hc
    rw [List.mem_reverse] at hc
    simp [h c hc]
  rw [List.append_assoc, takeWhile_append_all _ seg.reverse (['/'] ++ base.reverse) hall]
  have hstop : List.takeWhile (fun c => !(c == '/')) (['/'] ++ base.reverse) = [] := by
    simp [List.takeWhile_cons]
  rw [hstop]
  simp

theorem lastSegment_lead_url (iu X : String)
    (hX : ∀ c ∈ X.data, (c == '/') = false) :
    lastSegment (iu ++ "/services/data/v57.0/sobjects/Lead/" ++ X) = X := by
  unfold lastSegment
  have h1 : ("/services/data/v57.0/sobjects/Lead/" : String).data =
      ("/services/data/v57.0/sobjects/Lead" : String).data ++ ['/'] := rfl
  have hdata : (iu ++ "/services/data/v57.0/sobjects/Lead/" ++ X).data =
      (iu.data ++ ("/services/data/v57.0/sobjects/Lead" : String).data) ++ '/' :: X.data := by
    rw [String.data_append, String.data_append, h1]
    simp [List.append_assoc]
  rw [hdata, lastSegmentChars_append _ _ hX]

theorem jsOptToString_none : jsOptToString none = "undefined" := rfl

theorem mainRun_tail_filter_get (iu tok lid dirname now : String)
    (getRaw : Except String AxiosResponse) (writeResult : Except String Unit) :
    (match (getLeadDetails iu tok lid getRaw).2 with
     | JsOutcome.ok d => (saveLeadToFile dirname now d writeResult).1
     | JsOutcome.threw e => [Event.consoleError "Error:" (some (Json.str e.message))]
     | JsOutcome.exited _ => ([] : List Event)).filter Event.isGet = [] := by
  cases hg : (getLeadDetails iu tok lid getRaw).2 with
  | ok d => exact saveLeadToFile_filter_get dirname now d writeResult
  | exited c => rfl
  | threw e => rfl

/-- C3: for an identifier string `X` carried in the `id` field of a
successful creation response, the read-back is a single GET whose URL is the
record URL ending in exactly `X`, carrying only the bearer Authorization
header, and `getLeadDetails` resolves to the decoded response body
unmodified. -/
theorem readback_get_final_segment_is_id
    (config : List (String × String)) (tr cr : AxiosResponse)
    (getRaw : Except String AxiosResponse) (leadData : Json)
    (dirname now : String) (writeResult : Except String Unit) (iu tok X : String)
    (hvalid : validConfig config) (h2 : is2xx tr.status = true)
    (hiu : jsGetField tr.data "instance_url" = some (Json.str iu))
    (htk : jsGetField tr.data "access_token" = some (Json.str tok))
    (hc2 : is2xx cr.status = true)
    (hid : jsGetField cr.data "id" = some (Json.str X))
    (hX : ∀ c ∈ X.data, (c == '/') = false) :
    (mainRun config (Except.ok tr) true leadData (Except.ok cr) getRaw dirname now
        writeResult).filter Event.isGet =
      [Event.httpGet (iu ++ "/services/data/v57.0/sobjects/Lead/" ++ X)
        [("Authorization", "Bearer " ++ tok)]] ∧
    lastSegment (iu ++ "/services/data/v57.0/sobjects/Lead/" ++ X) = X ∧
    (∀ (raw : Except String AxiosResponse) (r : AxiosResponse),
      raw = Except.ok r → is2xx r.status = true →
      (getLeadDetails iu tok X raw).2 = JsOutcome.ok r.data) := by
  refine ⟨?_, lastSegment_lead_url iu X hX, ?_⟩
  · rw [mainRun_happy_path config tr cr getRaw leadData dirname now writeResult iu tok
      hvalid h2 hiu htk hc2, hid, jsOptToString_some_str]
    have ha : (authenticateSalesforce config (Except.ok tr)).1.filter Event.isGet = [] := by
      rw [auth_valid_ok config tr hvalid h2]
      rfl
    have hc : (createLead iu tok leadData (Except.ok cr)).1.filter Event.isGet = [] := by
      rw [createLead_ok iu tok leadData cr hc2]
      rfl
    rw [List.filter_append, List.filter_append, List.filter_append, ha, hc,
      getLeadDetails_filter_get,
      mainRun_tail_filter_get iu tok X dirname now getRaw writeResult]
    rfl
  · intro raw r hraw h2r
    subst hraw
    unfold getLeadDetails
    simp only [axiosResult, h2r, if_true]

/-- C3 witness: a concrete run whose creation response has id `00Q123`; the
lone GET targets the record URL ending in `00Q123`. -/
theorem readback_get_final_segment_is_id_witness :
    validConfig
      [("grant_type", "password"), ("client_id", "cid"), ("client_secret", "sec"),
       ("username", "u"), ("password", "pw")] ∧
    (mainRun
        [("grant_type", "password"), ("client_id", "cid"), ("client_secret", "sec"),
         ("username", "u"), ("password", "pw")]
        (Except.ok ⟨200,
          Json.obj [("access_token", Json.str "tok"),
            ("instance_url", Json.str "https://na1.salesforce.com")]⟩)
        true (Json.obj [("LastName", Json.str "Doe")])
        (Except.ok ⟨201, Json.obj [("id", Json.str "00Q123"), ("success", Json.bool true)]⟩)
        (Except.ok ⟨200, Json.obj [("Id", Json.str "00Q123"), ("LastName", Json.str "Doe")]⟩)
        "/opt/app/src" "2024-05-06T07:08:09.123Z" (Except.ok ())).filter Event.isGet =
      [Event.httpGet
        ("https://na1.salesforce.com" ++ "/services/data/v57.0/sobjects/Lead/" ++ "00Q123")
        [("Authorization", "Bearer " ++ "tok")]] ∧
    lastSegment
      ("https://na1.salesforce.com" ++ "/services/data/v57.0/sobjects/Lead/" ++ "00Q123") =
      "00Q123" := by
  have h := readback_get_final_segment_is_id
    [("grant_type", "password"), ("client_id", "cid"), ("client_secret", "sec"),
     ("username", "u"), ("password", "pw")]
    ⟨200, Json.obj [("access_token", Json.str "tok"),
      ("instance_url", Json.str "https://na1.salesforce.com")]⟩
    ⟨201, Json.obj [("id", Json.str "00Q123"), ("success", Json.bool true)]⟩
    (Except.ok ⟨200, Json.obj [("Id", Json.str "00Q123"), ("LastName", Json.str "Doe")]⟩)
    (Json.obj [("LastName", Json.str "Doe")])
    "/opt/app/src" "2024-05-06T07:08:09.123Z" (Except.ok ())
    "https://na1.salesforce.com" "tok" "00Q123"
    (by decide) (by decide) rfl rfl (by decide) rfl (by decide)
  exact ⟨by decide, h.1, h.2.1⟩

/-- C9: when the creation response is an object carrying no `id` field, the
run does not fail before the read-back: the GET is still issued, against the
record URL whose final path segment is the literal text `undefined`.  (The
response is required to be an object: on a non-object such as JSON `null`,
JS member access `createResponse.id` throws instead.) -/
theorem readback_missing_id_uses_undefined
    (config : List (String × String)) (tr cr : AxiosResponse)
    (getRaw : Except String AxiosResponse) (leadData : Json)
    (dirname now : String) (writeResult : Except String Unit) (iu tok : String)
    (cfs : List (String × Json))
    (hvalid : validConfig config) (h2 : is2xx tr.status = true)
    (hiu : jsGetField tr.data "instance_url" = some (Json.str iu))
    (htk : jsGetField tr.data "access_token" = some (Json.str tok))
    (hc2 : is2xx cr.status = true)
    (hobj : cr.data = Json.obj cfs)
    (hid : cfs.lookup "id" = none) :
    (mainRun config (Except.ok tr) true leadData (Except.ok cr) getRaw dirname now
        writeResult).filter Event.isGet =
      [Event.httpGet (iu ++ "/services/data/v57.0/sobjects/Lead/" ++ "undefined")
        [("Authorization", "Bearer " ++ tok)]] ∧
    lastSegment (iu ++ "/services/data/v57.0/sobjects/Lead/" ++ "undefined") =
      "undefined" := by
  have hidn : jsGetField cr.data "id" = none := by
    rw [hobj]
    exact hid
  constructor
  · rw [mainRun_happy_path config tr cr getRaw leadData dirname now writeResult iu tok
      hvalid h2 hiu htk hc2, hidn, jsOptToString_none]
    have ha : (authenticateSalesforce config (Except.ok tr)).1.filter Event.isGet = [] := by
      rw [auth_valid_ok config tr hvalid h2]
      rfl
    have hc : (createLead iu tok leadData (Except.ok cr)).1.filter Event.isGet = [] := by
      rw [createLead_ok iu tok leadData cr hc2]
      rfl
    rw [List.filter_append, List.filter_append, List.filter_append, ha, hc,
      getLeadDetails_filter_get,
      mainRun_tail_filter_get iu tok "undefined" dirname now getRaw writeResult]
    rfl
  · exact lastSegment_lead_url iu "undefined" (by decide)

/-- C9 witness: a concrete object creation response without `id`; the
read-back GET targets `.../Lead/undefined`. -/
theorem readback_missing_id_uses_undefined_witness :
    ([("success", Json.bool true)] : List (String × Json)).lookup "id" = none ∧
    (mainRun
        [("grant_type", "password"), ("client_id", "cid"), ("client_secret", "sec"),
         ("username", "u"), ("password", "pw")]
        (Except.ok ⟨200,
          Json.obj [("access_token", Json.str "tok"),
            ("instance_url", Json.str "https://na1.salesforce.com")]⟩)
        true (Json.obj [("LastName", Json.str "Doe")])
        (Except.ok ⟨201, Json.obj [("success", Json.bool true)]⟩)
        (Except.ok ⟨404, Json.null⟩)
        "/opt/app/src" "2024-05-06T07:08:09.123Z" (Except.ok ())).filter Event.isGet =
      [Event.httpGet
        ("https://na1.salesforce.com" ++ "/services/data/v57.0/sobjects/Lead/" ++ "undefined")
        [("Authorization", "Bearer " ++ "tok")]] := by
  have h := readback_missing_id_uses_undefined
    [("grant_type", "password"), ("client_id", "cid"), ("client_secret", "sec"),
     ("username", "u"), ("password", "pw")]
    ⟨200, Json.obj [("access_token", Json.str "tok"),
      ("instance_url", Json.str "https://na1.salesforce.com")]⟩
    ⟨201, Json.obj [("success", Json.bool true)]⟩
    (Except.ok ⟨404, Json.null⟩)
    (Json.obj [("LastName", Json.str "Doe")])
    "/opt/app/src" "2024-05-06T07:08:09.123Z" (Except.ok ())
    "https://na1.salesforce.com" "tok" [("success", Json.bool true)]
    (by decide) (by decide) rfl rfl (by decide) rfl rfl
  exact ⟨rfl, h.1⟩

theorem axiosResult_non2xx (r : AxiosResponse) (h : is2xx r.status = false) :
    axiosResult (Except.ok r) =
      Except.error
        ⟨"Request failed with status code " ++ String.mk (natChars r.status), some r⟩ := by
  unfold axiosResult
  simp [h]

theorem createLead_non2xx (iu tok : String) (leadData : Json) (cr : AxiosResponse)
    (hc2 : is2xx cr.status = false) :
    createLead iu tok leadData (Except.ok cr) =
      ([Event.httpPost (iu ++ "/services/data/v57.0/sobjects/Lead")
          [("Authorization", "Bearer " ++ tok), ("Content-Type", "application/json")]
          (RequestBody.json leadData),
        Event.consoleError "Error creating lead:"
          (some (jsErrorReport
            ⟨"Request failed with status code " ++ String.mk (natChars cr.status),
              some cr⟩))],
       JsOutcome.threw
         ⟨"Request failed with status code " ++ String.mk (natChars cr.status), some cr⟩) := by
  unfold createLead
  rw [axiosResult_non2xx cr hc2]

theorem mainRun_create_failed (config : List (String × String)) (tr cr : AxiosResponse)
    (getRaw : Except String AxiosResponse) (leadData : Json)
    (dirname now : String) (writeResult : Except String Unit) (iu tok : String)
    (hvalid : validConfig config) (h2 : is2xx tr.status = true)
    (hiu : jsGetField tr.data "instance_url" = some (Json.str iu))
    (htk : jsGetField tr.data "access_token" = some (Json.str tok))
    (hc2 : is2xx cr.status = false) :
    mainRun config (Except.ok tr) true leadData (Except.ok cr) getRaw dirname now
        writeResult =
      [Event.httpPost "https://login.salesforce.com/services/oauth2/token"
          [("Content-Type", "application/x-www-form-urlencoded")]
          (RequestBody.form (qsStringify config)),
        Event.consoleLog "Authentication successful. access_token recieved." none,
        Event.httpPost (iu ++ "/services/data/v57.0/sobjects/Lead")
          [("Authorization", "Bearer " ++ tok), ("Content-Type", "application/json")]
          (RequestBody.json leadData),
        Event.consoleError "Error creating lead:"
          (some (jsErrorReport
            ⟨"Request failed with status code " ++ String.mk (natChars cr.status),
              some cr⟩)),
        Event.consoleError "Error:"
          (some (Json.str ("Request failed with status code " ++
            String.mk (natChars cr.status))))] := by
  unfold mainRun
  rw [auth_valid_ok config tr hvalid h2]
  simp only [hiu, htk, jsOptToString_some_str, Bool.not_true, Bool.false_eq_true,
    if_false]
  rw [createLead_non2xx iu tok leadData cr hc2]
  simp

/-- C2 (amended): when the creation call returns a non-2xx response, the run
issues no read-back GET and no file write, and the orchestrator's own final
report carries only the axios error message, not the body — all regardless
of the body; the creation stage's error report carries
`error.response?.data || error.message`, hence the remote response body
whenever that body is present (non-empty, as the code's truthiness check
demands). -/
theorem create_failure_no_read_no_persist (config : List (String × String))
    (tr cr : AxiosResponse) (getRaw : Except String AxiosResponse) (leadData : Json)
    (dirname now : String) (writeResult : Except String Unit) (iu tok : String)
    (hvalid : validConfig config) (h2 : is2xx tr.status = true)
    (hiu : jsGetField tr.data "instance_url" = some (Json.str iu))
    (htk : jsGetField tr.data "access_token" = some (Json.str tok))
    (hc2 : is2xx cr.status = false) :
    (mainRun config (Except.ok tr) true leadData (Except.ok cr) getRaw dirname now
        writeResult).filter Event.isGet = [] ∧
    (mainRun config (Except.ok tr) true leadData (Except.ok cr) getRaw dirname now
        writeResult).filter Event.isFileWrite = [] ∧
    Event.consoleError "Error creating lead:"
        (some (jsErrorReport
          ⟨"Request failed with status code " ++ String.mk (natChars cr.status),
            some cr⟩)) ∈
      mainRun config (Except.ok tr) true leadData (Except.ok cr) getRaw dirname now
        writeResult ∧
    (jsonTruthy cr.data = true →
      Event.consoleError "Error creating lead:" (some cr.data) ∈
        mainRun config (Except.ok tr) true leadData (Except.ok cr) getRaw dirname now
          writeResult) ∧
    (mainRun config (Except.ok tr) true leadData (Except.ok cr) getRaw dirname now
        writeResult).getLast? =
      some (Event.consoleError "Error:"
        (some (Json.str ("Request failed with status code " ++
          String.mk (natChars cr.status))))) := by
  rw [mainRun_create_failed config tr cr getRaw leadData dirname now writeResult iu tok
    hvalid h2 hiu htk hc2]
  refine ⟨rfl, rfl, by simp, ?_, rfl⟩
  intro hbody
  have hrep : jsErrorReport
      ⟨"Request failed with status code " ++ String.mk (natChars cr.status), some cr⟩ =
      cr.data := by
    simp [jsErrorReport, hbody]
  rw [← hrep]
  simp

/-- C2 witness: a concrete run with a 400 creation response; no GET and no
file write occur (the stage report carries the body, the final report the
message). -/
theorem create_failure_no_read_no_persist_witness :
    is2xx 400 = false ∧
    (mainRun
        [("grant_type", "password"), ("client_id", "cid"), ("client_secret", "sec"),
         ("username", "u"), ("password", "pw")]
        (Except.ok ⟨200,
          Json.obj [("access_token", Json.str "tok"),
            ("instance_url", Json.str "https://na1.salesforce.com")]⟩)
        true (Json.obj [("LastName", Json.str "Doe")])
        (Except.ok ⟨400, Json.obj [("message", Json.str "DUPLICATE_VALUE")]⟩)
        (Except.error "unused") "/opt/app/src" "2024-05-06T07:08:09.123Z"
        (Except.ok ())).filter Event.isGet = [] ∧
    (mainRun
        [("grant_type", "password"), ("client_id", "cid"), ("client_secret", "sec"),
         ("username", "u"), ("password", "pw")]
        (Except.ok ⟨200,
          Json.obj [("access_token", Json.str "tok"),
            ("instance_url", Json.str "https://na1.salesforce.com")]⟩)
        true (Json.obj [("LastName", Json.str "Doe")])
        (Except.ok ⟨400, Json.obj [("message", Json.str "DUPLICATE_VALUE")]⟩)
        (Except.error "unused") "/opt/app/src" "2024-05-06T07:08:09.123Z"
        (Except.ok ())).filter Event.isFileWrite = [] := by
  have h := create_failure_no_read_no_persist
    [("grant_type", "password"), ("client_id", "cid"), ("client_secret", "sec"),
     ("username", "u"), ("password", "pw")]
    ⟨200, Json.obj [("access_token", Json.str "tok"),
      ("instance_url", Json.str "https://na1.salesforce.com")]⟩
    ⟨400, Json.obj [("message", Json.str "DUPLICATE_VALUE")]⟩
    (Except.error "unused") (Json.obj [("LastName", Json.str "Doe")])
    "/opt/app/src" "2024-05-06T07:08:09.123Z" (Except.ok ())
    "https://na1.salesforce.com" "tok"
    (by decide) (by decide) rfl rfl (by decide)
  exact ⟨by decide, h.1, h.2.1⟩

/-- C2 counterexample: at this concrete failing creation, the orchestrator's
report — the final console error, emitted by the top-level catch — carries
the axios message `Request failed with status code 400`, which is not the
remote response body; only the creation stage's own log carries the body. -/
theorem orchestrator_report_lacks_remote_body :
    (mainRun
        [("grant_type", "password"), ("client_id", "cid"), ("client_secret", "sec"),
         ("username", "u"), ("password", "pw")]
        (Except.ok ⟨200,
          Json.obj [("access_token", Json.str "tok"),
            ("instance_url", Json.str "https://na1.salesforce.com")]⟩)
        true (Json.obj [("LastName", Json.str "Doe")])
        (Except.ok ⟨400, Json.obj [("message", Json.str "DUPLICATE_VALUE")]⟩)
        (Except.error "unused") "/opt/app/src" "2024-05-06T07:08:09.123Z"
        (Except.ok ())).getLast? =
      some (Event.consoleError "Error:"
        (some (Json.str "Request failed with status code 400"))) ∧
    Json.str "Request failed with status code 400" ≠
      Json.obj [("message", Json.str "DUPLICATE_VALUE")] :=
  ⟨rfl, fun h => Json.noConfusion h⟩

/-- C8 (amended): when the destination cannot be written, `saveLeadToFile`
catches the failure locally, logs `Error saving lead details to file:` with
the error's message, and returns normally — no write error propagates to the
orchestrator. -/
theorem persist_write_error_logged_locally (dirname now : String) (rec : Json)
    (msg : String) :
    saveLeadToFile dirname now rec (Except.error msg) =
      ([Event.fileWrite (dirname ++ "/" ++ ("lead-" ++ sanitizeTimestamp now ++ ".json"))
          (jsonStringify2 rec),
        Event.consoleError "Error saving lead details to file:" (some (Json.str msg))],
       JsOutcome.ok ()) := rfl

/-- C8 counterexample: at a concrete failing write the persister's outcome is
a normal return, not a propagated failure; at run level the final event is
the persister's local log, and no orchestrator `Error:` report follows. -/
theorem persist_write_error_not_propagated :
    (saveLeadToFile "/opt/app/src" "2024-05-06T07:08:09.123Z"
        (Json.obj [("Id", Json.str "x")]) (Except.error "EACCES: permission denied")).2 =
      JsOutcome.ok () ∧
    (mainRun
        [("grant_type", "password"), ("client_id", "cid"), ("client_secret", "sec"),
         ("username", "u"), ("password", "pw")]
        (Except.ok ⟨200,
          Json.obj [("access_token", Json.str "tok"),
            ("instance_url", Json.str "https://na1.salesforce.com")]⟩)
        true (Json.obj [("LastName", Json.str "Doe")])
        (Except.ok ⟨201, Json.obj [("id", Json.str "00Q123")]⟩)
        (Except.ok ⟨200, Json.obj [("Id", Json.str "00Q123")]⟩)
        "/opt/app/src" "2024-05-06T07:08:09.123Z"
        (Except.error "EACCES: permission denied")).getLast? =
      some (Event.consoleError "Error saving lead details to file:"
        (some (Json.str "EACCES: permission denied"))) :=
  ⟨rfl, rfl⟩

/-- C4 counterexample: the destination directory of the persisted file is the
script's own directory (`__dirname`), not the process working directory: two
runs identical except for the script directory write to different absolute
paths, so for a process whose working directory differs from the script
directory the claimed destination is wrong. -/
theorem persist_destination_tracks_script_dir :
    (saveLeadToFile "/opt/app/src" "2024-05-06T07:08:09.123Z"
        (Json.obj [("Id", Json.str "x")]) (Except.ok ())).1.head? =
      some (Event.fileWrite "/opt/app/src/lead-2024-05-06T07-08-09-123Z.json"
        (jsonStringify2 (Json.obj [("Id", Json.str "x")]))) ∧
    (saveLeadToFile "/home/runner/work" "2024-05-06T07:08:09.123Z"
        (Json.obj [("Id", Json.str "x")]) (Except.ok ())).1.head? =
      some (Event.fileWrite "/home/runner/work/lead-2024-05-06T07-08-09-123Z.json"
        (jsonStringify2 (Json.obj [("Id", Json.str "x")]))) ∧
    ("/opt/app/src/lead-2024-05-06T07-08-09-123Z.json" : String) ≠
      "/home/runner/work/lead-2024-05-06T07-08-09-123Z.json" :=
  ⟨rfl, rfl, by decide⟩

theorem digitChar_isDigit (n : Nat) : (digitChar n).isDigit = true := by
  unfold digitChar
  split <;> decide

theorem digitVal_digitChar (n : Nat) (h : n < 10) : digitVal (digitChar n) = n := by
  interval_cases n <;> decide

theorem natCharsAux_all_digits (f : Nat) : ∀ n c, c ∈ natCharsAux f n → c.isDigit = true := by
  induction f with
  | zero => intro n c hc; cases hc
  | succ f ih =>
      intro n c hc
      unfold natCharsAux at hc
      by_cases hn : n < 10
      · rw [if_pos hn] at hc
        rcases List.mem_singleton.mp hc with rfl
        exact digitChar_isDigit n
      · rw [if_neg hn] at hc
        rcases List.mem_append.mp hc with h | h
        · exact ih (n / 10) c h
        · rcases List.mem_singleton.mp h with rfl
          exact digitChar_isDigit (n % 10)

theorem natCharsAux_ne_nil (f n : Nat) : natCharsAux (f + 1) n ≠ [] := by
  unfold natCharsAux
  by_cases hn : n < 10
  · rw [if_pos hn]; simp
  · rw [if_neg hn]; simp

theorem parseDigits_stop (acc : Nat) (rest : List Char) (h : headNotDigit rest) :
    parseDigits acc rest = (acc, rest) := by
  cases rest with
  | nil => rfl
  | cons c cs =>
      have hc : c.isDigit = false := h
      simp [parseDigits, hc]

theorem parseDigits_run (ds : List Char) (hds : ∀ c ∈ ds, c.isDigit = true) :
    ∀ acc rest, headNotDigit rest →
      parseDigits acc (ds ++ rest) = (pushDigits acc ds, rest) := by
  induction ds with
  | nil =>
      intro acc rest hrest
      simpa [pushDigits] using parseDigits_stop acc rest hrest
  | cons d ds ih =>
      intro acc rest hrest
      have hd : d.isDigit = true := hds d (List.mem_cons_self d ds)
      simp only [List.cons_append, parseDigits, hd, if_true, pushDigits, List.foldl_cons]
      exact ih (fun c hc => hds c (List.mem_cons_of_mem d hc)) _ rest hrest

theorem pushDigits_append_single (acc : Nat) (ds : List Char) (c : Char) :
    pushDigits acc (ds ++ [c]) = pushDigits acc ds * 10 + digitVal c := by
  simp [pushDigits, List.foldl_append]

theorem pushDigits_natCharsAux (f : Nat) :
    ∀ n acc, n < f →
      pushDigits acc (natCharsAux f n) = acc * 10 ^ (natCharsAux f n).length + n := by
  induction f with
  | zero => intro n acc h; omega
  | succ f ih =>
      intro n acc h
      unfold natCharsAux
      by_cases hn : n < 10
      · rw [if_pos hn]
        simp [pushDigits, digitVal_digitChar n hn]
      · rw [if_neg hn]
        have hdivlt : n / 10 < f := by
          have h1 : n / 10 < n := Nat.div_lt_self (by omega) (by omega)
          omega
        have hih := ih (n / 10) acc hdivlt
        rw [pushDigits_append_single, hih, digitVal_digitChar (n % 10) (by omega)]
        have hdm : n / 10 * 10 + n % 10 = n := by omega
        simp only [List.length_append, List.length_singleton, pow_succ]
        ring_nf
        omega

theorem pushDigits_natChars (n : Nat) : pushDigits 0 (natChars n) = n := by
  have h := pushDigits_natCharsAux (n + 1) n 0 (by omega)
  simpa [natChars] using h

theorem digit_not_ws (c : Char) (h : c.isDigit = true) : isWsChar c = false := by
  cases hw : isWsChar c
  · rfl
  · exfalso
    have hw' := hw
    simp only [isWsChar, Bool.or_eq_true, beq_iff_eq] at hw'
    rcases hw' with ((rfl | rfl) | rfl) | rfl <;> exact absurd h (by decide)

theorem digit_ne_dash (c : Char) (h : c.isDigit = true) : ¬(c = '-') := by
  intro hc
  subst hc
  exact absurd h (by decide)

theorem parseNumberChars_digits (ds : List Char) (hne : ds ≠ [])
    (hds : ∀ c ∈ ds, c.isDigit = true) (rest : List Char) (hrest : headNotDigit rest) :
    parseNumberChars (ds ++ rest) = some (Json.num (pushDigits 0 ds : Nat), rest) ∧
    parseNumberChars ('-' :: ds ++ rest) =
      some (Json.num (-(pushDigits 0 ds : Nat) : Int), rest) := by
  obtain ⟨c, t, rfl⟩ : ∃ c t, ds = c :: t := by
    cases ds with
    | nil => exact absurd rfl hne
    | cons c t => exact ⟨c, t, rfl⟩
  have hc : c.isDigit = true := hds c (List.mem_cons_self c t)
  have hpd : parseDigits 0 ((c :: t) ++ rest) = (pushDigits 0 (c :: t), rest) :=
    parseDigits_run (c :: t) hds 0 rest hrest
  constructor
  · show parseNumberChars (c :: (t ++ rest)) = _
    unfold parseNumberChars
    simp [hc, digit_ne_dash c hc]
    exact ⟨congrArg Prod.fst hpd, congrArg Prod.snd hpd⟩
  · show parseNumberChars ('-' :: (c :: (t ++ rest))) = _
    unfold parseNumberChars
    simp [hc]
    exact ⟨congrArg Prod.fst hpd, congrArg Prod.snd hpd⟩

theorem natChars_ne_nil (n : Nat) : natChars n ≠ [] := natCharsAux_ne_nil n n

theorem parseNumberChars_intChars (n : Int) (rest : List Char)
    (hrest : headNotDigit rest) :
    parseNumberChars (intChars n ++ rest) = some (Json.num n, rest) := by
  by_cases hn : n < 0
  · have hic : intChars n = '-' :: natChars n.natAbs := by
      unfold intChars
      rw [if_pos hn]
    rw [hic]
    have h := (parseNumberChars_digits (natChars n.natAbs) (natChars_ne_nil _)
      (natCharsAux_all_digits _ _) rest hrest).2
    rw [pushDigits_natChars] at h
    have heq : (-((n.natAbs : Nat) : Int)) = n := by omega
    rw [h, heq]
  · have hic : intChars n = natChars n.toNat := by
      unfold intChars
      rw [if_neg hn]
    rw [hic]
    have h := (parseNumberChars_digits (natChars n.toNat) (natChars_ne_nil _)
      (natCharsAux_all_digits _ _) rest hrest).1
    rw [pushDigits_natChars] at h
    have heq : (((n.toNat : Nat) : Int)) = n := by omega
    rw [h, heq]

theorem digitChar_isHexDigit (n : Nat) : isHexDigitChar (digitChar n) = true := by
  unfold digitChar
  split <;> decide

theorem hexCharLower_isHexDigit (n : Nat) : isHexDigitChar (hexCharLower n) = true := by
  unfold hexCharLower
  split_ifs <;> first | exact digitChar_isHexDigit _ | decide

theorem hexVal_hexCharLower (m : Nat) (h : m < 16) : hexVal (hexCharLower m) = m := by
  interval_cases m <;> decide

theorem parseStringChars_cons_other (c : Char) (y : List Char)
    (h1 : ¬ c = '"') (h2 : ¬ c = '\\') :
    parseStringChars (c :: y) = (parseStringChars y).map (fun p => (c :: p.1, p.2)) := by
  conv_lhs => rw [parseStringChars.eq_def]
  split <;> simp_all

theorem parseStringChars_escape (cs : List Char) (rest : List Char) :
    parseStringChars (escapeChars cs ++ '"' :: rest) = some (cs, rest) := by
  induction cs with
  | nil => rfl
  | cons c cs ih =>
      show parseStringChars ((escChar c ++ escapeChars cs) ++ '"' :: rest) = _
      rw [List.append_assoc]
      unfold escChar
      split_ifs with h1 h2 h3 h4 h5 h6 h7 h8
      · subst h1; simp [parseStringChars, ih]
      · subst h2; simp [parseStringChars, ih]
      · subst h3; simp [parseStringChars, ih]
      · subst h4; simp [parseStringChars, ih]
      · subst h5; simp [parseStringChars, ih]
      · subst h6; simp [parseStringChars, ih]
      · subst h7; simp [parseStringChars, ih]
      · have hv1 : hexVal (hexCharLower (c.toNat / 16)) = c.toNat / 16 :=
          hexVal_hexCharLower _ (by omega)
        have hv2 : hexVal (hexCharLower (c.toNat % 16)) = c.toNat % 16 :=
          hexVal_hexCharLower _ (by omega)
        have hval : ((hexVal '0' * 16 + hexVal '0') * 16 + c.toNat / 16) * 16 +
            c.toNat % 16 = c.toNat := by
          have h0 : hexVal '0' = 0 := by decide
          rw [h0]
          omega
        simp only [List.cons_append, parseStringChars, hexCharLower_isHexDigit,
          Bool.and_true, Bool.true_and]
        simp only [show isHexDigitChar '0' = true from by decide, Bool.true_and,
          hexCharLower_isHexDigit, Bool.and_self, if_true]
        simp only [hv1, hv2, hval, Char.ofNat_toNat]
        simp [ih]
      · show parseStringChars (c :: (escapeChars cs ++ '"' :: rest)) = _
        rw [parseStringChars_cons_other c _ h1 h2, ih]
        rfl

theorem indentChars_all_ws (n : Nat) : ∀ c ∈ indentChars n, isWsChar c = true := by
  intro c hc
  rw [List.eq_of_mem_replicate hc]
  decide

theorem skipWs_drop_ws (ws : List Char) (hws : ∀ c ∈ ws, isWsChar c = true) :
    ∀ cs, skipWs (ws ++ cs) = skipWs cs := by
  induction ws with
  | nil => intro cs; rfl
  | cons w ws ih =>
      intro cs
      have hw : isWsChar w = true := hws w (List.mem_cons_self w ws)
      simp only [List.cons_append, skipWs, hw, if_true]
      exact ih (fun c hc => hws c (List.mem_cons_of_mem w hc)) cs

theorem skipWs_head_not_ws (c : Char) (cs : List Char) (h : isWsChar c = false) :
    skipWs (c :: cs) = c :: cs := by
  simp [skipWs, h]

theorem skipWs_nl_indent (m : Nat) (cs : List Char) :
    skipWs ('\n' :: indentChars m ++ cs) = skipWs cs := by
  have h : ∀ c ∈ '\n' :: indentChars m, isWsChar c = true := by
    intro c hc
    rcases List.mem_cons.mp hc with rfl | hc
    · decide
    · exact indentChars_all_ws m c hc
  exact skipWs_drop_ws ('\n' :: indentChars m) h cs

theorem stringifyChars_head (ind : Nat) (v : Json) :
    ∃ c t, stringifyChars ind v = c :: t ∧ isWsChar c = false ∧
      ¬ c = ']' ∧ ¬ c = '\x7d' ∧ ¬ c = ',' := by
  cases v with
  | null => exact ⟨'n', _, rfl, by decide, by decide, by decide, by decide⟩
  | bool b =>
      cases b with
      | true => exact ⟨'t', _, rfl, by decide, by decide, by decide, by decide⟩
      | false => exact ⟨'f', _, rfl, by decide, by decide, by decide, by decide⟩
  | num n =>
      show ∃ c t, intChars n = c :: t ∧ _
      unfold intChars
      by_cases hn : n < 0
      · rw [if_pos hn]
        exact ⟨'-', _, rfl, by decide, by decide, by decide, by decide⟩
      · rw [if_neg hn]
        obtain ⟨c, t, hct⟩ : ∃ c t, natChars n.toNat = c :: t := by
          cases h : natChars n.toNat with
          | nil => exact absurd h (natChars_ne_nil _)
          | cons c t => exact ⟨c, t, rfl⟩
        have hd : c.isDigit = true :=
          natCharsAux_all_digits _ _ c (hct ▸ List.mem_cons_self c t)
        refine ⟨c, t, hct, digit_not_ws c hd, ?_, ?_, ?_⟩ <;>
          (intro hc; subst hc; exact absurd hd (by decide))
  | str s => exact ⟨'"', _, rfl, by decide, by decide, by decide, by decide⟩
  | arr xs =>
      cases xs with
      | nil => exact ⟨'[', _, rfl, by decide, by decide, by decide, by decide⟩
      | cons x xs => exact ⟨'[', _, rfl, by decide, by decide, by decide, by decide⟩
  | obj fs =>
      cases fs with
      | nil => exact ⟨'\x7b', _, rfl, by decide, by decide, by decide, by decide⟩
      | cons f fs => exact ⟨'\x7b', _, rfl, by decide, by decide, by decide, by decide⟩

theorem parseValue_ws (f : Nat) (hf : 1 ≤ f) (ws cs : List Char)
    (hws : ∀ c ∈ ws, isWsChar c = true) :
    parseValue f (ws ++ cs) = parseValue f cs := by
  cases f with
  | zero => omega
  | succ f =>
      show parseValue (f + 1) (ws ++ cs) = parseValue (f + 1) cs
      unfold parseValue
      rw [skipWs_drop_ws ws hws cs]

theorem parseElems_ws (f : Nat) (hf : 2 ≤ f) (ws cs : List Char)
    (hws : ∀ c ∈ ws, isWsChar c = true) :
    parseElems f (ws ++ cs) = parseElems f cs := by
  cases f with
  | zero => omega
  | succ f =>
      show parseElems (f + 1) (ws ++ cs) = parseElems (f + 1) cs
      unfold parseElems
      rw [parseValue_ws f (by omega) ws cs hws]

theorem parseFuel_pos (v : Json) : 1 ≤ parseFuel v := by
  cases v <;> simp [parseFuel] <;> omega

theorem parseFuelElems_pos (xs : List Json) : 1 ≤ parseFuelElems xs := by
  cases xs with
  | nil => simp [parseFuelElems]
  | cons x xs => simp [parseFuelElems]; omega

theorem parseFuelMembers_pos (fs : List (String × Json)) : 1 ≤ parseFuelMembers fs := by
  cases fs with
  | nil => simp [parseFuelMembers]
  | cons f fs =>
      obtain ⟨k, v⟩ := f
      simp [parseFuelMembers]
      omega

theorem intChars_head (n : Int) :
    ∃ c t, intChars n = c :: t ∧ (c = '-' ∨ c.isDigit = true) := by
  unfold intChars
  by_cases hn : n < 0
  · rw [if_pos hn]
    exact ⟨'-', _, rfl, Or.inl rfl⟩
  · rw [if_neg hn]
    obtain ⟨c, t, hct⟩ : ∃ c t, natChars n.toNat = c :: t := by
      cases h : natChars n.toNat with
      | nil => exact absurd h (natChars_ne_nil _)
      | cons c t => exact ⟨c, t, rfl⟩
    exact ⟨c, t, hct,
      Or.inr (natCharsAux_all_digits _ _ c (hct ▸ List.mem_cons_self c t))⟩

theorem parseArrayBody_cons (f : Nat) (c : Char) (t : List Char) (h : ¬ c = ']') :
    parseArrayBody (f + 1) (c :: t) =
      (parseElems f (c :: t)).map (fun p => (Json.arr p.1, p.2)) := by
  unfold parseArrayBody
  split <;> simp_all

theorem parseObjectBody_cons (f : Nat) (c : Char) (t : List Char) (h : ¬ c = '\x7d') :
    parseObjectBody (f + 1) (c :: t) =
      (parseMembers f (c :: t)).map (fun p => (Json.obj p.1, p.2)) := by
  unfold parseObjectBody
  split <;> simp_all

theorem joinLines_items_cons (ind : Nat) (x : Json) (xs : List Json) :
    ∃ suf, joinLines (stringifyItems ind (x :: xs)) =
      (indentChars ind ++ stringifyChars ind x) ++ suf ∧
      ((xs = [] ∧ suf = []) ∨
       (xs ≠ [] ∧ suf = ',' :: '\n' :: joinLines (stringifyItems ind xs))) := by
  cases xs with
  | nil => exact ⟨[], by simp [stringifyItems, joinLines], Or.inl ⟨rfl, rfl⟩⟩
  | cons y ys =>
      refine ⟨',' :: '\n' :: joinLines (stringifyItems ind (y :: ys)), ?_,
        Or.inr ⟨by simp, rfl⟩⟩
      show joinLines ((indentChars ind ++ stringifyChars ind x) ::
        stringifyItems ind (y :: ys)) = _
      show (indentChars ind ++ stringifyChars ind x) ++
        ',' :: '\n' :: joinLines (stringifyItems ind (y :: ys)) = _
      rfl

theorem joinLines_members_cons (ind : Nat) (k : String) (v : Json)
    (fs : List (String × Json)) :
    ∃ suf, joinLines (stringifyMembers ind ((k, v) :: fs)) =
      (indentChars ind ++ (quoteChars k ++ ':' :: ' ' :: stringifyChars ind v)) ++ suf ∧
      ((fs = [] ∧ suf = []) ∨
       (fs ≠ [] ∧ suf = ',' :: '\n' :: joinLines (stringifyMembers ind fs))) := by
  cases fs with
  | nil =>
      refine ⟨[], ?_, Or.inl ⟨rfl, rfl⟩⟩
      show joinLines [indentChars ind ++ quoteChars k ++ ':' :: ' ' :: stringifyChars ind v] = _
      simp [joinLines]
  | cons g gs =>
      obtain ⟨k2, v2⟩ := g
      refine ⟨',' :: '\n' :: joinLines (stringifyMembers ind ((k2, v2) :: gs)), ?_,
        Or.inr ⟨by simp, rfl⟩⟩
      show joinLines ((indentChars ind ++ quoteChars k ++ ':' :: ' ' :: stringifyChars ind v) ::
        stringifyMembers ind ((k2, v2) :: gs)) = _
      show (indentChars ind ++ quoteChars k ++ ':' :: ' ' :: stringifyChars ind v) ++
        ',' :: '\n' :: joinLines (stringifyMembers ind ((k2, v2) :: gs)) = _
      simp

theorem parseMembers_ws (f : Nat) (hf : 1 ≤ f) (ws cs : List Char)
    (hws : ∀ c ∈ ws, isWsChar c = true) :
    parseMembers f (ws ++ cs) = parseMembers f cs := by
  cases f with
  | zero => omega
  | succ f =>
      show parseMembers (f + 1) (ws ++ cs) = parseMembers (f + 1) cs
      unfold parseMembers
      rw [skipWs_drop_ws ws hws cs]

theorem nl_indent_all_ws (n : Nat) : ∀ c ∈ '\n' :: indentChars n, isWsChar c = true := by
  intro c hc
  rcases List.mem_cons.mp hc with rfl | hc
  · decide
  · exact indentChars_all_ws n c hc

theorem parseMembers_step (F : Nat) (cs : List Char) (k : String) (tail : List Char)
    (h : skipWs cs = '"' :: (escapeChars k.data ++ '"' :: (':' :: tail))) :
    parseMembers (F + 1) cs =
      (parseValue F tail).bind (fun p => parseMembersTail F k p.1 (skipWs p.2)) := by
  simp only [parseMembers, h]
  rw [parseStringChars_escape]
  have hcolon : skipWs (':' :: tail) = ':' :: tail :=
    skipWs_head_not_ws ':' tail (by decide)
  simp [hcolon]

theorem parse_stringify (fuel : Nat) :
    (∀ v ind rest, parseFuel v ≤ fuel → headNotDigit rest →
      parseValue fuel (stringifyChars ind v ++ rest) = some (v, rest)) ∧
    (∀ xs ind m rest, parseFuelElems xs ≤ fuel → xs ≠ [] →
      parseElems fuel
        (joinLines (stringifyItems ind xs) ++ '\n' :: indentChars m ++ ']' :: rest) =
        some (xs, rest)) ∧
    (∀ fs ind m rest, parseFuelMembers fs ≤ fuel → fs ≠ [] →
      parseMembers fuel
        (joinLines (stringifyMembers ind fs) ++ '\n' :: indentChars m ++ '\x7d' :: rest) =
        some (fs, rest)) := by
  induction fuel using Nat.strong_induction_on with
  | _ fuel ih =>
  refine ⟨?_, ?_, ?_⟩
  · -- one serialized value followed by a non-digit boundary
    intro v ind rest hb hrest
    have hbpos := parseFuel_pos v
    obtain ⟨F, rfl⟩ : ∃ F, fuel = F + 1 := ⟨fuel - 1, by omega⟩
    cases v with
    | null => rfl
    | bool b => cases b <;> rfl
    | num n =>
        obtain ⟨c, t, hct, hsign⟩ := intChars_head n
        have hws : isWsChar c = false := by
          rcases hsign with rfl | hd
          · decide
          · exact digit_not_ws c hd
        have hne6 : ¬ c = 'n' ∧ ¬ c = 't' ∧ ¬ c = 'f' ∧ ¬ c = '"' ∧ ¬ c = '[' ∧
            ¬ c = '\x7b' := by
          rcases hsign with rfl | hd
          · exact ⟨by decide, by decide, by decide, by decide, by decide, by decide⟩
          · refine ⟨?_, ?_, ?_, ?_, ?_, ?_⟩ <;>
              (intro hc; subst hc; exact absurd hd (by decide))
        obtain ⟨hn1, hn2, hn3, hn4, hn5, hn6⟩ := hne6
        show parseValue (F + 1) (stringifyChars ind (Json.num n) ++ rest) =
          some (Json.num n, rest)
        rw [show stringifyChars ind (Json.num n) = intChars n from rfl, hct]
        show parseValue (F + 1) (c :: (t ++ rest)) = some (Json.num n, rest)
        simp only [parseValue]
        rw [skipWs_head_not_ws c _ hws]
        split
        · exfalso; simp_all
        · exfalso; simp_all
        · exfalso; simp_all
        · exfalso; simp_all
        · exfalso; simp_all
        · exfalso; simp_all
        · rw [show c :: (t ++ rest) = intChars n ++ rest from by simp [hct]]
          exact parseNumberChars_intChars n rest hrest
    | str s =>
        have hform : stringifyChars ind (Json.str s) ++ rest =
            '"' :: (escapeChars s.data ++ '"' :: rest) := by
          show quoteChars s ++ rest = _
          simp [quoteChars]
        rw [hform]
        rw [show parseValue (F + 1) ('"' :: (escapeChars s.data ++ '"' :: rest)) =
            (parseStringChars (escapeChars s.data ++ '"' :: rest)).map
              (fun p => (Json.str (String.mk p.1), p.2)) from rfl]
        rw [parseStringChars_escape]
        rfl
    | arr xs =>
        cases xs with
        | nil =>
            have hb3 : (3 : Nat) ≤ F + 1 := by
              have h3 : parseFuel (Json.arr []) = 3 := rfl
              omega
            obtain ⟨A, rfl⟩ : ∃ A, F = A + 1 := ⟨F - 1, by omega⟩
            rfl
        | cons x xs' =>
            have hpx := parseFuel_pos x
            have hpxs := parseFuelElems_pos xs'
            have hbe : 2 + (2 + parseFuel x + parseFuelElems xs') ≤ F + 1 := by
              have h4 : parseFuel (Json.arr (x :: xs')) =
                  2 + (2 + parseFuel x + parseFuelElems xs') := rfl
              omega
            obtain ⟨suf, hsuf, hsufcase⟩ := joinLines_items_cons (ind + 2) x xs'
            obtain ⟨c0, t0, hct0, hws0, hbr0, hbrc0, hcm0⟩ := stringifyChars_head (ind + 2) x
            have hform : stringifyChars ind (Json.arr (x :: xs')) ++ rest =
                '[' :: ('\n' :: (joinLines (stringifyItems (ind + 2) (x :: xs')) ++
                  ('\n' :: indentChars ind ++ ']' :: rest))) := by
              show ('[' :: '\n' :: joinLines (stringifyItems (ind + 2) (x :: xs')) ++
                '\n' :: indentChars ind ++ [']']) ++ rest = _
              simp
            rw [hform]
            rw [show parseValue (F + 1)
                ('[' :: ('\n' :: (joinLines (stringifyItems (ind + 2) (x :: xs')) ++
                  ('\n' :: indentChars ind ++ ']' :: rest)))) =
                parseArrayBody F
                  (skipWs ('\n' :: (joinLines (stringifyItems (ind + 2) (x :: xs')) ++
                    ('\n' :: indentChars ind ++ ']' :: rest)))) from rfl]
            have hZ : skipWs ('\n' :: (joinLines (stringifyItems (ind + 2) (x :: xs')) ++
                ('\n' :: indentChars ind ++ ']' :: rest))) =
                stringifyChars (ind + 2) x ++
                  (suf ++ ('\n' :: indentChars ind ++ ']' :: rest)) := by
              rw [hsuf]
              have h1 : ('\n' :: (((indentChars (ind + 2) ++ stringifyChars (ind + 2) x) ++
                  suf) ++ ('\n' :: indentChars ind ++ ']' :: rest))) =
                  ('\n' :: indentChars (ind + 2)) ++
                    (stringifyChars (ind + 2) x ++
                      (suf ++ ('\n' :: indentChars ind ++ ']' :: rest))) := by
                simp
              rw [h1, skipWs_drop_ws _ (nl_indent_all_ws (ind + 2)), hct0]
              exact skipWs_head_not_ws c0 _ hws0
            rw [hZ]
            obtain ⟨A, rfl⟩ : ∃ A, F = A + 1 := ⟨F - 1, by omega⟩
            rw [hct0]
            rw [show (c0 :: t0) ++ (suf ++ ('\n' :: indentChars ind ++ ']' :: rest)) =
                c0 :: (t0 ++ (suf ++ ('\n' :: indentChars ind ++ ']' :: rest))) from rfl]
            rw [parseArrayBody_cons A c0 _ hbr0]
            rw [show c0 :: (t0 ++ (suf ++ ('\n' :: indentChars ind ++ ']' :: rest))) =
                stringifyChars (ind + 2) x ++
                  (suf ++ ('\n' :: indentChars ind ++ ']' :: rest)) from by simp [hct0]]
            have hE := (ih A (by omega)).2.1 (x :: xs') (ind + 2) ind rest (by
              show parseFuelElems (x :: xs') ≤ A
              have h5 : parseFuelElems (x :: xs') =
                  2 + parseFuel x + parseFuelElems xs' := rfl
              omega) (by simp)
            rw [hsuf] at hE
            have hassoc2 : ((indentChars (ind + 2) ++ stringifyChars (ind + 2) x) ++ suf) ++
                '\n' :: indentChars ind ++ ']' :: rest =
                indentChars (ind + 2) ++
                  (stringifyChars (ind + 2) x ++
                    (suf ++ ('\n' :: indentChars ind ++ ']' :: rest))) := by
              simp
            rw [hassoc2, parseElems_ws A (by omega) _ _ (indentChars_all_ws _)] at hE
            rw [hE]
            rfl
    | obj fs =>
        cases fs with
        | nil =>
            have hb3 : (3 : Nat) ≤ F + 1 := by
              have h3 : parseFuel (Json.obj []) = 3 := rfl
              omega
            obtain ⟨A, rfl⟩ : ∃ A, F = A + 1 := ⟨F - 1, by omega⟩
            rfl
        | cons g fs' =>
            obtain ⟨k, v⟩ := g
            have hpv := parseFuel_pos v
            have hpfs := parseFuelMembers_pos fs'
            have hbe : 2 + (2 + parseFuel v + parseFuelMembers fs') ≤ F + 1 := by
              have h4 : parseFuel (Json.obj ((k, v) :: fs')) =
                  2 + (2 + parseFuel v + parseFuelMembers fs') := rfl
              omega
            obtain ⟨suf, hsuf, hsufcase⟩ := joinLines_members_cons (ind + 2) k v fs'
            have hform : stringifyChars ind (Json.obj ((k, v) :: fs')) ++ rest =
                '\x7b' :: ('\n' :: (joinLines (stringifyMembers (ind + 2) ((k, v) :: fs')) ++
                  ('\n' :: indentChars ind ++ '\x7d' :: rest))) := by
              show ('\x7b' :: '\n' :: joinLines (stringifyMembers (ind + 2) ((k, v) :: fs')) ++
                '\n' :: indentChars ind ++ ['\x7d']) ++ rest = _
              simp
            rw [hform]
            rw [show parseValue (F + 1)
                ('\x7b' :: ('\n' :: (joinLines (stringifyMembers (ind + 2) ((k, v) :: fs')) ++
                  ('\n' :: indentChars ind ++ '\x7d' :: rest)))) =
                parseObjectBody F
                  (skipWs ('\n' :: (joinLines (stringifyMembers (ind + 2) ((k, v) :: fs')) ++
                    ('\n' :: indentChars ind ++ '\x7d' :: rest)))) from rfl]
            have hZ : skipWs ('\n' :: (joinLines (stringifyMembers (ind + 2) ((k, v) :: fs')) ++
                ('\n' :: indentChars ind ++ '\x7d' :: rest))) =
                (quoteChars k ++ ':' :: ' ' :: stringifyChars (ind + 2) v) ++
                  (suf ++ ('\n' :: indentChars ind ++ '\x7d' :: rest)) := by
              rw [hsuf]
              have h1 : ('\n' :: (((indentChars (ind + 2) ++
                  (quoteChars k ++ ':' :: ' ' :: stringifyChars (ind + 2) v)) ++ suf) ++
                  ('\n' :: indentChars ind ++ '\x7d' :: rest))) =
                  ('\n' :: indentChars (ind + 2)) ++
                    ((quoteChars k ++ ':' :: ' ' :: stringifyChars (ind + 2) v) ++
                      (suf ++ ('\n' :: indentChars ind ++ '\x7d' :: rest))) := by
                simp
              rw [h1, skipWs_drop_ws _ (nl_indent_all_ws (ind + 2))]
              show skipWs ('"' :: (escapeChars k.data ++ ['"'] ++
                (':' :: ' ' :: stringifyChars (ind + 2) v) ++ _)) = _
              exact skipWs_head_not_ws '"' _ (by decide)
            rw [hZ]
            obtain ⟨A, rfl⟩ : ∃ A, F = A + 1 := ⟨F - 1, by omega⟩
            rw [show (quoteChars k ++ ':' :: ' ' :: stringifyChars (ind + 2) v) ++
                (suf ++ ('\n' :: indentChars ind ++ '\x7d' :: rest)) =
                '"' :: (escapeChars k.data ++
                  ('"' :: (':' :: (' ' :: (stringifyChars (ind + 2) v ++
                    (suf ++ ('\n' :: indentChars ind ++ '\x7d' :: rest))))))) from by
              simp [quoteChars]]
            rw [parseObjectBody_cons A '"' _ (by decide)]
            have hM := (ih A (by omega)).2.2 ((k, v) :: fs') (ind + 2) ind rest (by
              show parseFuelMembers ((k, v) :: fs') ≤ A
              have h5 : parseFuelMembers ((k, v) :: fs') =
                  2 + parseFuel v + parseFuelMembers fs' := rfl
              omega) (by simp)
            rw [hsuf] at hM
            have hassoc2 : ((indentChars (ind + 2) ++
                (quoteChars k ++ ':' :: ' ' :: stringifyChars (ind + 2) v)) ++ suf) ++
                '\n' :: indentChars ind ++ '\x7d' :: rest =
                indentChars (ind + 2) ++
                  ('"' :: (escapeChars k.data ++
                    ('"' :: (':' :: (' ' :: (stringifyChars (ind + 2) v ++
                      (suf ++ ('\n' :: indentChars ind ++ '\x7d' :: rest)))))))) := by
              simp [quoteChars]
            rw [hassoc2, parseMembers_ws A (by omega) _ _ (indentChars_all_ws _)] at hM
            rw [hM]
            rfl
  · -- the rendered lines of a non-empty array body followed by its closing line
    intro xs ind m rest hb hne
    cases xs with
    | nil => exact absurd rfl hne
    | cons x xs' =>
        have hpx := parseFuel_pos x
        have hpxs := parseFuelElems_pos xs'
        have hbe : 2 + parseFuel x + parseFuelElems xs' ≤ fuel := by
          have h5 : parseFuelElems (x :: xs') =
              2 + parseFuel x + parseFuelElems xs' := rfl
          omega
        obtain ⟨F, rfl⟩ : ∃ F, fuel = F + 1 := ⟨fuel - 1, by omega⟩
        obtain ⟨suf, hsuf, hsufcase⟩ := joinLines_items_cons ind x xs'
        simp only [parseElems]
        have hassoc : joinLines (stringifyItems ind (x :: xs')) ++
            '\n' :: indentChars m ++ ']' :: rest =
            indentChars ind ++ (stringifyChars ind x ++
              (suf ++ ('\n' :: indentChars m ++ ']' :: rest))) := by
          rw [hsuf]
          simp
        rw [hassoc]
        rw [parseValue_ws F (by omega) _ _ (indentChars_all_ws ind)]
        have hrest' : headNotDigit (suf ++ ('\n' :: indentChars m ++ ']' :: rest)) := by
          rcases hsufcase with ⟨hxs, rfl⟩ | ⟨hxs, rfl⟩
          · simp only [List.nil_append]
            show ('\n'.isDigit = false)
            decide
          · show (','.isDigit = false)
            decide
        rw [(ih F (by omega)).1 x ind _ (by omega) hrest']
        simp only [Option.bind]
        rcases hsufcase with ⟨hxs, rfl⟩ | ⟨hxs, rfl⟩
        · subst hxs
          have hsw2 : skipWs (([] : List Char) ++
              ('\n' :: indentChars m ++ ']' :: rest)) = ']' :: rest := by
            simp only [List.nil_append]
            rw [show ('\n' :: indentChars m ++ ']' :: rest) =
              ('\n' :: indentChars m) ++ (']' :: rest) from by simp]
            rw [skipWs_drop_ws _ (nl_indent_all_ws m)]
            exact skipWs_head_not_ws ']' rest (by decide)
          rw [hsw2]
          obtain ⟨B, rfl⟩ : ∃ B, F = B + 1 := ⟨F - 1, by omega⟩
          rfl
        · have hsw2 : skipWs ((',' :: '\n' :: joinLines (stringifyItems ind xs')) ++
              ('\n' :: indentChars m ++ ']' :: rest)) =
              ',' :: ('\n' :: (joinLines (stringifyItems ind xs') ++
                ('\n' :: indentChars m ++ ']' :: rest))) := by
            rw [show ((',' :: '\n' :: joinLines (stringifyItems ind xs')) ++
                ('\n' :: indentChars m ++ ']' :: rest)) =
                ',' :: ('\n' :: (joinLines (stringifyItems ind xs') ++
                  ('\n' :: indentChars m ++ ']' :: rest))) from by simp]
            exact skipWs_head_not_ws ',' _ (by decide)
          rw [hsw2]
          obtain ⟨B, rfl⟩ : ∃ B, F = B + 1 := ⟨F - 1, by omega⟩
          rw [show parseElemsTail (B + 1) x
              (',' :: ('\n' :: (joinLines (stringifyItems ind xs') ++
                ('\n' :: indentChars m ++ ']' :: rest)))) =
              (parseElems B ('\n' :: (joinLines (stringifyItems ind xs') ++
                ('\n' :: indentChars m ++ ']' :: rest)))).map
                (fun q => (x :: q.1, q.2)) from rfl]
          rw [show ('\n' :: (joinLines (stringifyItems ind xs') ++
              ('\n' :: indentChars m ++ ']' :: rest))) =
              ['\n'] ++ (joinLines (stringifyItems ind xs') ++
                ('\n' :: indentChars m ++ ']' :: rest)) from rfl]
          rw [parseElems_ws B (by omega) ['\n'] _
            (by intro cw hcw; rcases List.mem_singleton.mp hcw with rfl; decide)]
          rw [show joinLines (stringifyItems ind xs') ++
              ('\n' :: indentChars m ++ ']' :: rest) =
              joinLines (stringifyItems ind xs') ++ '\n' :: indentChars m ++ ']' :: rest
              from by simp]
          rw [(ih B (by omega)).2.1 xs' ind m rest (by omega) hxs]
          rfl
  · -- the rendered lines of a non-empty object body followed by its closing line
    intro fs ind m rest hb hne
    cases fs with
    | nil => exact absurd rfl hne
    | cons g fs' =>
        obtain ⟨k, v⟩ := g
        have hpv := parseFuel_pos v
        have hpfs := parseFuelMembers_pos fs'
        have hbe : 2 + parseFuel v + parseFuelMembers fs' ≤ fuel := by
          have h5 : parseFuelMembers ((k, v) :: fs') =
              2 + parseFuel v + parseFuelMembers fs' := rfl
          omega
        obtain ⟨F, rfl⟩ : ∃ F, fuel = F + 1 := ⟨fuel - 1, by omega⟩
        obtain ⟨suf, hsuf, hsufcase⟩ := joinLines_members_cons ind k v fs'
        have hq : skipWs (joinLines (stringifyMembers ind ((k, v) :: fs')) ++
            '\n' :: indentChars m ++ '\x7d' :: rest) =
            '"' :: (escapeChars k.data ++ '"' :: (':' :: (' ' :: (stringifyChars ind v ++
              (suf ++ ('\n' :: indentChars m ++ '\x7d' :: rest)))))) := by
          rw [hsuf]
          have h1 : ((indentChars ind ++
              (quoteChars k ++ ':' :: ' ' :: stringifyChars ind v)) ++ suf) ++
              '\n' :: indentChars m ++ '\x7d' :: rest =
              indentChars ind ++ ('"' :: (escapeChars k.data ++
                '"' :: (':' :: (' ' :: (stringifyChars ind v ++
                  (suf ++ ('\n' :: indentChars m ++ '\x7d' :: rest))))))) := by
            simp [quoteChars]
          rw [h1, skipWs_drop_ws _ (indentChars_all_ws ind)]
          exact skipWs_head_not_ws '"' _ (by decide)
        rw [parseMembers_step F _ k _ hq]
        rw [show (' ' :: (stringifyChars ind v ++
            (suf ++ ('\n' :: indentChars m ++ '\x7d' :: rest)))) =
            [' '] ++ (stringifyChars ind v ++
              (suf ++ ('\n' :: indentChars m ++ '\x7d' :: rest))) from rfl]
        rw [parseValue_ws F (by omega) [' '] _
          (by intro cw hcw; rcases List.mem_singleton.mp hcw with rfl; decide)]
        have hrest' : headNotDigit (suf ++ ('\n' :: indentChars m ++ '\x7d' :: rest)) := by
          rcases hsufcase with ⟨hfs, rfl⟩ | ⟨hfs, rfl⟩
          · simp only [List.nil_append]
            show ('\n'.isDigit = false)
            decide
          · show (','.isDigit = false)
            decide
        rw [(ih F (by omega)).1 v ind _ (by omega) hrest']
        simp only [Option.bind]
        rcases hsufcase with ⟨hfs, rfl⟩ | ⟨hfs, rfl⟩
        · subst hfs
          have hsw2 : skipWs (([] : List Char) ++
              ('\n' :: indentChars m ++ '\x7d' :: rest)) = '\x7d' :: rest := by
            simp only [List.nil_append]
            rw [show ('\n' :: indentChars m ++ '\x7d' :: rest) =
              ('\n' :: indentChars m) ++ ('\x7d' :: rest) from by simp]
            rw [skipWs_drop_ws _ (nl_indent_all_ws m)]
            exact skipWs_head_not_ws '\x7d' rest (by decide)
          rw [hsw2]
          obtain ⟨B, rfl⟩ : ∃ B, F = B + 1 := ⟨F - 1, by omega⟩
          rfl
        · have hsw2 : skipWs ((',' :: '\n' :: joinLines (stringifyMembers ind fs')) ++
              ('\n' :: indentChars m ++ '\x7d' :: rest)) =
              ',' :: ('\n' :: (joinLines (stringifyMembers ind fs') ++
                ('\n' :: indentChars m ++ '\x7d' :: rest))) := by
            rw [show ((',' :: '\n' :: joinLines (stringifyMembers ind fs')) ++
                ('\n' :: indentChars m ++ '\x7d' :: rest)) =
                ',' :: ('\n' :: (joinLines (stringifyMembers ind fs') ++
                  ('\n' :: indentChars m ++ '\x7d' :: rest))) from by simp]
            exact skipWs_head_not_ws ',' _ (by decide)
          rw [hsw2]
          obtain ⟨B, rfl⟩ : ∃ B, F = B + 1 := ⟨F - 1, by omega⟩
          rw [show parseMembersTail (B + 1) k v
              (',' :: ('\n' :: (joinLines (stringifyMembers ind fs') ++
                ('\n' :: indentChars m ++ '\x7d' :: rest)))) =
              (parseMembers B ('\n' :: (joinLines (stringifyMembers ind fs') ++
                ('\n' :: indentChars m ++ '\x7d' :: rest)))).map
                (fun q => ((k, v) :: q.1, q.2)) from rfl]
          rw [show ('\n' :: (joinLines (stringifyMembers ind fs') ++
              ('\n' :: indentChars m ++ '\x7d' :: rest))) =
              ['\n'] ++ (joinLines (stringifyMembers ind fs') ++
                ('\n' :: indentChars m ++ '\x7d' :: rest)) from rfl]
          rw [parseMembers_ws B (by omega) ['\n'] _
            (by intro cw hcw; rcases List.mem_singleton.mp hcw with rfl; decide)]
          rw [show joinLines (stringifyMembers ind fs') ++
              ('\n' :: indentChars m ++ '\x7d' :: rest) =
              joinLines (stringifyMembers ind fs') ++ '\n' :: indentChars m ++ '\x7d' :: rest
              from by simp]
          rw [(ih B (by omega)).2.2 fs' ind m rest (by omega) hfs]
          rfl

theorem parseFuel_le_length (n : Nat) :
    (∀ v, sizeOf v ≤ n → ∀ ind : Nat, parseFuel v ≤ (stringifyChars ind v).length + 1) ∧
    (∀ xs : List Json, sizeOf xs ≤ n → ∀ ind : Nat, 2 ≤ ind → xs ≠ [] →
      parseFuelElems xs ≤ (joinLines (stringifyItems ind xs)).length + 2) ∧
    (∀ fs : List (String × Json), sizeOf fs ≤ n → ∀ ind : Nat, fs ≠ [] →
      parseFuelMembers fs ≤ (joinLines (stringifyMembers ind fs)).length + 2) := by
  induction n with
  | zero =>
      refine ⟨?_, ?_, ?_⟩
      · intro v hv; cases v <;> simp at hv
      · intro xs hxs; cases xs with
        | nil => intro ind _ hne; exact absurd rfl hne
        | cons x xs => simp at hxs
      · intro fs hfs; cases fs with
        | nil => intro ind hne; exact absurd rfl hne
        | cons g fs => simp at hfs
  | succ n ihn =>
      obtain ⟨ihv, ihe, ihm⟩ := ihn
      refine ⟨?_, ?_, ?_⟩
      · intro v hv ind
        cases v with
        | null =>
            have h1 : parseFuel Json.null = 1 := rfl
            omega
        | bool b =>
            have h1 : parseFuel (Json.bool b) = 1 := rfl
            omega
        | num m =>
            have h1 : parseFuel (Json.num m) = 1 := rfl
            omega
        | str s =>
            have h1 : parseFuel (Json.str s) = 1 := rfl
            omega
        | arr xs =>
            cases xs with
            | nil =>
                have h1 : parseFuel (Json.arr []) = 3 := rfl
                have h2 : (stringifyChars ind (Json.arr [])).length = 2 := rfl
                omega
            | cons x xs' =>
                have h1 : parseFuel (Json.arr (x :: xs')) =
                    2 + parseFuelElems (x :: xs') := rfl
                have h2 : (stringifyChars ind (Json.arr (x :: xs'))).length =
                    (joinLines (stringifyItems (ind + 2) (x :: xs'))).length + ind + 4 := by
                  show ((('[' :: '\n' :: joinLines (stringifyItems (ind + 2) (x :: xs'))) ++
                    ('\n' :: indentChars ind) ++ [']']).length) = _
                  simp [indentChars]
                  omega
                have hsz : sizeOf (x :: xs') ≤ n := by
                  have h3 : sizeOf (Json.arr (x :: xs')) = 1 + sizeOf (x :: xs') := by
                    simp
                  omega
                have he := ihe (x :: xs') hsz (ind + 2) (by omega) (by simp)
                omega
        | obj fs =>
            cases fs with
            | nil =>
                have h1 : parseFuel (Json.obj []) = 3 := rfl
                have h2 : (stringifyChars ind (Json.obj [])).length = 2 := rfl
                omega
            | cons g fs' =>
                have h1 : parseFuel (Json.obj (g :: fs')) =
                    2 + parseFuelMembers (g :: fs') := by
                  obtain ⟨k, v⟩ := g
                  rfl
                have h2 : (stringifyChars ind (Json.obj (g :: fs'))).length =
                    (joinLines (stringifyMembers (ind + 2) (g :: fs'))).length + ind + 4 := by
                  obtain ⟨k, v⟩ := g
                  show ((('\x7b' :: '\n' ::
                    joinLines (stringifyMembers (ind + 2) ((k, v) :: fs'))) ++
                    ('\n' :: indentChars ind) ++ ['\x7d']).length) = _
                  simp [indentChars]
                  omega
                have hsz : sizeOf (g :: fs') ≤ n := by
                  have h3 : sizeOf (Json.obj (g :: fs')) = 1 + sizeOf (g :: fs') := by
                    simp
                  omega
                have hm := ihm (g :: fs') hsz (ind + 2) (by simp)
                omega
      · intro xs hxs ind hind hne
        cases xs with
        | nil => exact absurd rfl hne
        | cons x xs' =>
            have hszx : sizeOf x ≤ n := by
              have h3 : sizeOf (x :: xs') = 1 + sizeOf x + sizeOf xs' := by simp
              have h4 : 1 ≤ sizeOf xs' := by cases xs' <;> simp <;> omega
              omega
            have hvx := ihv x hszx ind
            cases xs' with
            | nil =>
                have h1 : parseFuelElems [x] = 2 + parseFuel x + 1 := rfl
                have h2 : (joinLines (stringifyItems ind [x])).length =
                    ind + (stringifyChars ind x).length := by
                  show ((indentChars ind ++ stringifyChars ind x).length) = _
                  simp [indentChars]
                omega
            | cons y ys =>
                have h1 : parseFuelElems (x :: y :: ys) =
                    2 + parseFuel x + parseFuelElems (y :: ys) := rfl
                have h2 : (joinLines (stringifyItems ind (x :: y :: ys))).length =
                    ind + (stringifyChars ind x).length + 2 +
                      (joinLines (stringifyItems ind (y :: ys))).length := by
                  show (((indentChars ind ++ stringifyChars ind x) ++
                    ',' :: '\n' :: joinLines (stringifyItems ind (y :: ys))).length) = _
                  simp [indentChars]
                  omega
                have hsz' : sizeOf (y :: ys) ≤ n := by
                  have h3 : sizeOf (x :: y :: ys) =
                      1 + sizeOf x + sizeOf (y :: ys) := by simp
                  have h4 : 1 ≤ sizeOf x := by cases x <;> simp <;> omega
                  omega
                have he' := ihe (y :: ys) hsz' ind hind (by simp)
                omega
      · intro fs hfs ind hne
        cases fs with
        | nil => exact absurd rfl hne
        | cons g fs' =>
            obtain ⟨k, v⟩ := g
            have hszv : sizeOf v ≤ n := by
              have h3 : sizeOf ((k, v) :: fs') =
                  1 + (1 + sizeOf k + sizeOf v) + sizeOf fs' := by simp
              have h4 : 1 ≤ sizeOf fs' := by cases fs' <;> simp <;> omega
              omega
            have hvv := ihv v hszv ind
            cases fs' with
            | nil =>
                have h1 : parseFuelMembers [(k, v)] = 2 + parseFuel v + 1 := rfl
                have h2 : (joinLines (stringifyMembers ind [(k, v)])).length =
                    ind + (quoteChars k).length + 2 + (stringifyChars ind v).length := by
                  show ((indentChars ind ++ quoteChars k ++
                    ':' :: ' ' :: stringifyChars ind v).length) = _
                  simp [indentChars]
                  omega
                omega
            | cons g2 gs =>
                obtain ⟨k2, v2⟩ := g2
                have h1 : parseFuelMembers ((k, v) :: (k2, v2) :: gs) =
                    2 + parseFuel v + parseFuelMembers ((k2, v2) :: gs) := rfl
                have h2 : (joinLines (stringifyMembers ind ((k, v) :: (k2, v2) :: gs))).length =
                    ind + (quoteChars k).length + 2 + (stringifyChars ind v).length + 2 +
                      (joinLines (stringifyMembers ind ((k2, v2) :: gs))).length := by
                  show (((indentChars ind ++ quoteChars k ++
                    ':' :: ' ' :: stringifyChars ind v) ++
                    ',' :: '\n' :: joinLines (stringifyMembers ind ((k2, v2) :: gs))).length) = _
                  simp [indentChars]
                  omega
                have hsz' : sizeOf ((k2, v2) :: gs) ≤ n := by
                  have h3 : sizeOf ((k, v) :: (k2, v2) :: gs) =
                      1 + (1 + sizeOf k + sizeOf v) + sizeOf ((k2, v2) :: gs) := by simp
                  have h4 : 1 ≤ sizeOf v := by cases v <;> simp <;> omega
                  omega
                have hm' := ihm ((k2, v2) :: gs) hsz' ind (by simp)
                omega

theorem jsonParse_stringify (v : Json) : jsonParse (jsonStringify2 v) = some v := by
  have hb : parseFuel v ≤ (stringifyChars 0 v).length + 1 :=
    (parseFuel_le_length (sizeOf v)).1 v (le_refl _) 0
  have hV := (parse_stringify ((stringifyChars 0 v).length + 1)).1 v 0 [] hb trivial
  rw [List.append_nil] at hV
  show (match parseValue ((stringifyChars 0 v).length + 1) (stringifyChars 0 v) with
    | some (w, rest) => if skipWs rest = [] then some w else none
    | none => none) = some v
  rw [hV]
  rfl

/-- C4 (amended): for every record, the persisted file's name is `lead-`
followed by the clock's ISO-8601 timestamp with every colon and period
replaced by a hyphen, suffixed `.json` (the timestamp portion contains no
colon or period); the file is written to the script's own directory
(`__dirname`), not necessarily the process working directory; and its
contents are exactly the record serialized as pretty-printed JSON with
two-space indentation, so parsing them recovers a structure equal to the
record. -/
theorem persist_filename_timestamp_contents (dirname now : String) (rec : Json) :
    saveLeadToFile dirname now rec (Except.ok ()) =
      ([Event.fileWrite (dirname ++ "/" ++ ("lead-" ++ sanitizeTimestamp now ++ ".json"))
          (jsonStringify2 rec),
        Event.consoleLog ("Lead details saved to file: " ++
          ("lead-" ++ sanitizeTimestamp now ++ ".json")) none],
       JsOutcome.ok ()) ∧
    (∀ c ∈ (sanitizeTimestamp now).data, ¬(c = ':' ∨ c = '.')) ∧
    jsonParse (jsonStringify2 rec) = some rec := by
  refine ⟨rfl, ?_, jsonParse_stringify rec⟩
  intro c hc
  have hdata : (sanitizeTimestamp now).data =
      now.data.map (fun c => if c = ':' || c = '.' then '-' else c) := rfl
  rw [hdata] at hc
  rcases List.mem_map.mp hc with ⟨c0, hc0, rfl⟩
  by_cases h1 : c0 = ':'
  · simp [h1]
  · by_cases h2 : c0 = '.'
    · simp [h1, h2]
    · simp [h1, h2]
